import Mathlib

/-!
# Verification of the CognitoForge risk-manifest and attack-plan pipeline

Shallow embedding of `backend/app/services/repo_fetcher.py` and
`backend/app/services/gemini_service.py`.  Strings are modelled as `List Char`
(`Str`); Python `str` methods (`lower`, `strip`, `in`, `endswith`,
`pathlib.Path.name` / `.suffix`) are embedded as executable functions.
Case conversion is modelled at the ASCII level.
-/

namespace CognitoForge

/-- Python strings, modelled as lists of characters. -/
abbrev Str := List Char

/-- Python `str.lower()` (ASCII-level model). -/
def lowerL (s : Str) : Str := s.map Char.toLower

/-- Python `str.upper()` (ASCII-level model). -/
def upperL (s : Str) : Str := s.map Char.toUpper

/-- Does `a` start with `pre`?  (Helper for Python's `in` and `endswith`.) -/
def startsWithL : Str → Str → Bool
  | [], _ => true
  | _ :: _, [] => false
  | a :: as, b :: bs => a == b && startsWithL as bs

/-- Python `needle in hay` on strings (substring containment). -/
def containsSub (hay needle : Str) : Bool :=
  startsWithL needle hay ||
    match hay with
    | [] => false
    | _ :: t => containsSub t needle

/-- Python `hay.endswith(suffix)`. -/
def endsWithL (hay suffix : Str) : Bool :=
  startsWithL suffix.reverse hay.reverse

/-- Python whitespace as used by `str.strip()` and `\s` (ASCII part plus the
common Unicode space characters). -/
def pyIsSpace (c : Char) : Bool :=
  c.toNat == 0x20 || c.toNat == 0x09 || c.toNat == 0x0a || c.toNat == 0x0b ||
  c.toNat == 0x0c || c.toNat == 0x0d || c.toNat == 0x1c || c.toNat == 0x1d ||
  c.toNat == 0x1e || c.toNat == 0x1f || c.toNat == 0x85 || c.toNat == 0xa0 ||
  c.toNat == 0x1680 || (0x2000 ≤ c.toNat && c.toNat ≤ 0x200a) || c.toNat == 0x2028 ||
  c.toNat == 0x2029 || c.toNat == 0x202f || c.toNat == 0x205f || c.toNat == 0x3000

/-- Python `str.strip()`: drop leading and trailing whitespace. -/
def pyStrip (s : Str) : Str :=
  ((s.dropWhile pyIsSpace).reverse.dropWhile pyIsSpace).reverse

/-- `pathlib.Path.name`: the final path component (after the last `/`). -/
def pathName (rel : Str) : Str :=
  (rel.reverse.takeWhile (fun c => c ≠ '/')).reverse

/-- `pathlib.Path.suffix` of a file name: the part from the final dot, empty
when the only dot is leading (dot-files such as `.env`) or trailing. -/
def pathSuffix (name : Str) : Str :=
  let afterRev := name.reverse.takeWhile (fun c => c ≠ '.')
  if name.contains '.' then
    if 0 < name.length - 1 - afterRev.length && afterRev.length > 0 then
      '.' :: afterRev.reverse
    else []
  else []

/-! ## repo_fetcher.py: risk heuristics -/

/-- `_HIGH_RISK_SUFFIXES` from `repo_fetcher.py`. -/
def HIGH_RISK_SUFFIXES : List Str :=
  [".env", ".yaml", ".yml", ".json", ".ini", ".cfg", ".conf", ".tf", ".toml",
   ".pem", ".key", ".ppk"].map String.data

/-- `_HIGH_RISK_FILENAMES` from `repo_fetcher.py`. -/
def HIGH_RISK_FILENAMES : List Str :=
  ["dockerfile", "docker-compose.yml", "docker-compose.yaml"].map String.data

/-- `_SENSITIVE_KEYWORDS` from `repo_fetcher.py`. -/
def SENSITIVE_KEYWORDS : List Str :=
  ["secret", "credential", "token", "password", "config", "deploy", "workflow",
   "env", "key"].map String.data

/-- `_assess_risk(path, rel_path)`: grade a file's risk level with reasons.
The `path.name` / `path.suffix` of the source are recovered from the relative
path (the file is the same final component). -/
def assessRisk (relPath : Str) : String × List String :=
  let suffix := lowerL (pathSuffix (pathName relPath))
  let name := lowerL (pathName relPath)
  let relLower := lowerL relPath
  let reasons : List String :=
    (if HIGH_RISK_FILENAMES.contains name || HIGH_RISK_SUFFIXES.contains suffix then
      ["Sensitive configuration or secret-bearing file"] else []) ++
    (if SENSITIVE_KEYWORDS.any (fun kw => containsSub name kw) then
      ["Filename contains sensitive keyword"] else []) ++
    (if containsSub relLower (".github/workflows".data) then
      ["GitHub Actions workflow may expose CI secrets"] else []) ++
    (if containsSub relLower ("docker".data) &&
        [([] : Str), ".yml".data, ".yaml".data].contains suffix then
      ["Docker artefact impacting container security"] else []) ++
    (if endsWithL relLower ("/config.json".data) || endsWithL relLower ("/config.yaml".data) then
      ["Configuration file with potential secrets"] else [])
  if reasons ≠ [] then ("high", reasons)
  else if [".sh".data, ".ps1".data, ".bat".data].contains suffix then
    ("medium", ["Executable script"])
  else ("low", [])

/-! ## repo_fetcher.py: manifest builder -/

/-- One entry of the manifest's `files` list. -/
structure FileRecord where
  path : String
  size : Int
  extension : String
  risk_level : String
  risk_reasons : List String
deriving Repr, DecidableEq

/-- The manifest dictionary built by `_build_manifest`. -/
structure Manifest where
  repo_id : String
  repo_url : String
  owner : String
  name : String
  fetched_at : String
  file_count : Nat
  high_risk_file_count : Nat
  files : List FileRecord
  top_extensions : List (String × Nat)
deriving Repr, DecidableEq

/-- Fold one key into a `Counter`-style association list (insertion order of
first occurrences preserved, as for a Python dict). -/
def bumpKey : List (String × Nat) → String → List (String × Nat)
  | [], k => [(k, 1)]
  | (a, n) :: t, k => if a = k then (a, n + 1) :: t else (a, n) :: bumpKey t k

/-- `collections.Counter` over a list of keys. -/
def counterOf (keys : List String) : List (String × Nat) :=
  keys.foldl bumpKey []

/-- Insert into a count-descending list, after existing entries with a count
at least as large (stable, mirroring `Counter.most_common`). -/
def insDesc (x : String × Nat) : List (String × Nat) → List (String × Nat)
  | [] => [x]
  | y :: t => if x.2 ≤ y.2 then y :: insDesc x t else x :: y :: t

/-- Sort counts in descending order of count (stable insertion sort). -/
def sortCountsDesc (l : List (String × Nat)) : List (String × Nat) :=
  l.foldr insDesc []

/-- `_build_manifest`: the walked files are given as `(rel_path, size)` pairs
(the result of the `rglob` file walk); the timestamp is a parameter. -/
def buildManifest (repoId repoUrl owner name fetchedAt : String)
    (walk : List (String × Int)) : Manifest :=
  let files : List FileRecord := walk.map (fun w =>
    let rk := assessRisk w.1.data
    { path := w.1
      size := w.2
      extension := (lowerL (pathSuffix (pathName w.1.data))).asString
      risk_level := rk.1
      risk_reasons := rk.2 })
  let exts := files.filterMap (fun f => if f.extension ≠ "" then some f.extension else none)
  { repo_id := repoId
    repo_url := repoUrl
    owner := owner
    name := name
    fetched_at := fetchedAt
    file_count := files.length
    high_risk_file_count := (files.filter (fun f => f.risk_level == "high")).length
    files := files
    top_extensions := (sortCountsDesc (counterOf exts)).take 5 }

/-- `[f.get("path") for f in files if f.get("path")]`: the truthy `path`
fields of a list of file records. -/
def pathsOf (files : List FileRecord) : List String :=
  files.filterMap (fun f => if f.path ≠ "" then some f.path else none)

/-- `list_all_paths(manifest)`: all truthy `path` fields. -/
def list_all_paths (m : Manifest) : List String :=
  pathsOf m.files

/-- Comparator for `select_high_risk_files`: Python tuple key
`(-len(risk_reasons), -size, path)` ascending. -/
def hrKeyLE (a b : FileRecord) : Bool :=
  (b.risk_reasons.length < a.risk_reasons.length) ||
  (b.risk_reasons.length == a.risk_reasons.length &&
    (b.size < a.size || (b.size == a.size && a.path ≤ b.path)))

/-- Stable insertion into a list sorted by `le` (new element goes after
existing elements it does not strictly precede). -/
def insBy (le : FileRecord → FileRecord → Bool) (x : FileRecord) :
    List FileRecord → List FileRecord
  | [] => [x]
  | y :: t => if le y x then y :: insBy le x t else x :: y :: t

/-- Stable insertion sort by `le`. -/
def sortBy (le : FileRecord → FileRecord → Bool) (l : List FileRecord) :
    List FileRecord :=
  l.foldr (insBy le) []

/-- `select_high_risk_files(manifest, limit)`. -/
def select_high_risk_files (m : Manifest) (limit : Nat) : List FileRecord :=
  let highRisk := m.files.filter (fun f => f.risk_level == "high")
  if highRisk ≠ [] then (sortBy hrKeyLE highRisk).take limit
  else
    (sortBy (fun a b => b.size ≤ a.size) m.files).take limit

/-! ## gemini_service.py: regular-expression substitution (`re.sub`)

The regexes used by `_sanitize_text` are flat sequences of literal
characters, `\s+` runs and counted character classes, so they are embedded
as lists of atoms matched greedily (for these patterns maximal-munch
coincides with the backtracking semantics of `re`: a `\s+` run is always
followed by a non-whitespace literal or nothing).  `re.IGNORECASE` literals
are modelled as two-character ASCII sets. -/

/-- One atom of a sanitizer regex: `cnt k p` consumes exactly `k` characters
satisfying `p`; `run k p` consumes a maximal run of `p`-characters and fails
when the run is shorter than `k`. -/
inductive Atom where
  | cnt (k : Nat) (p : Char → Bool)
  | run (k : Nat) (p : Char → Bool)

/-- Greedy matcher: length of the match of `pat` at the head of `l`. -/
def matchAtoms : List Atom → Str → Option Nat
  | [], _ => some 0
  | .cnt k p :: rest, l =>
      if k ≤ l.length && (l.take k).all p then
        (matchAtoms rest (l.drop k)).map (fun n => k + n)
      else none
  | .run k p :: rest, l =>
      let r := (l.takeWhile p).length
      if r < k then none
      else (matchAtoms rest (l.drop r)).map (fun n => r + n)

/-- A case-insensitive literal character (ASCII model of `re.IGNORECASE`). -/
def ciLit (c : Char) : Char → Bool := fun d => d == c || d == c.toUpper

/-- A case-sensitive literal character. -/
def csLit (c : Char) : Char → Bool := fun d => d == c

/-- Case-insensitive literal word. -/
def ciWord (s : String) : List Atom := s.data.map (fun c => .cnt 1 (ciLit c))

/-- Case-sensitive literal word. -/
def csWord (s : String) : List Atom := s.data.map (fun c => .cnt 1 (csLit c))

/-- The character class `[0-9A-Za-z_-]` of the API-key and token regexes. -/
def tokenClass (c : Char) : Bool :=
  ('A' ≤ c && c ≤ 'Z') || ('a' ≤ c && c ≤ 'z') || ('0' ≤ c && c ≤ '9') ||
  c == '_' || c == '-'

/-- The character class `[0-9A-Za-z]` of the `sk-` key regex. -/
def alnumClass (c : Char) : Bool :=
  (65 ≤ c.toNat && c.toNat ≤ 90) || (97 ≤ c.toNat && c.toNat ≤ 122) ||
  (48 ≤ c.toNat && c.toNat ≤ 57)

/-- `rm\s+-rf` (IGNORECASE). -/
def patRmRf : List Atom := ciWord "rm" ++ [.run 1 pyIsSpace] ++ ciWord "-rf"
/-- `curl\s+` (IGNORECASE). -/
def patCurl : List Atom := ciWord "curl" ++ [.run 1 pyIsSpace]
/-- `wget\s+` (IGNORECASE). -/
def patWget : List Atom := ciWord "wget" ++ [.run 1 pyIsSpace]
/-- `bash\s+` (IGNORECASE). -/
def patBash : List Atom := ciWord "bash" ++ [.run 1 pyIsSpace]
/-- `sh\s+` (IGNORECASE). -/
def patShSpace : List Atom := ciWord "sh" ++ [.run 1 pyIsSpace]
/-- `exec\(` (IGNORECASE). -/
def patExecCall : List Atom := ciWord "exec("
/-- `eval\(` (IGNORECASE). -/
def patEvalCall : List Atom := ciWord "eval("
/-- `os\.system` (IGNORECASE). -/
def patOsSystem : List Atom := ciWord "os.system"
/-- `subprocess\.` (IGNORECASE). -/
def patSubproc : List Atom := ciWord "subprocess."
/-- `AIza[0-9A-Za-z_-]{35}` (case-sensitive). -/
def patAiza : List Atom := csWord "AIza" ++ [.cnt 35 tokenClass]
/-- `sk-[0-9A-Za-z]{48}` (case-sensitive). -/
def patSk : List Atom := csWord "sk-" ++ [.cnt 48 alnumClass]
/-- `[A-Za-z0-9_-]{40,}` (the generic-token regex). -/
def patToken : List Atom := [.run 40 tokenClass]

/-- `re.sub(pat, repl, l)` with a constant replacement: leftmost
non-overlapping matches are replaced, scanning resumes after each match. -/
def subst (pat : List Atom) (repl : Str) : Str → Str
  | [] => []
  | c :: cs =>
    match matchAtoms pat (c :: cs) with
    | some n => repl ++ subst pat repl (cs.drop (n - 1))
    | none => c :: subst pat repl cs
termination_by l => l.length
decreasing_by
  all_goals simp [List.length_drop]
  all_goals omega

/-- `re.sub(pat, f, l)` with a function replacement applied to the match. -/
def substFn (pat : List Atom) (rf : Str → Str) : Str → Str
  | [] => []
  | c :: cs =>
    match matchAtoms pat (c :: cs) with
    | some n => rf ((c :: cs).take n) ++ substFn pat rf (cs.drop (n - 1))
    | none => c :: substFn pat rf cs
termination_by l => l.length
decreasing_by
  all_goals simp [List.length_drop]
  all_goals omega

/-- Python `str.isdigit()` on the ASCII range (every character the token
regex can match is ASCII). -/
def pyIsDigit (c : Char) : Bool := '0' ≤ c && c ≤ '9'

/-- Python `str.isalpha()` on the ASCII range. -/
def pyIsAlpha (c : Char) : Bool :=
  (65 ≤ c.toNat && c.toNat ≤ 90) || (97 ≤ c.toNat && c.toNat ≤ 122)

/-- The replacement function of the generic-token branch of `_sanitize_text`:
redact when some character is both a digit and alphabetic. -/
def tokenRepl (g : Str) : Str :=
  if g.any (fun c => pyIsDigit c && pyIsAlpha c) then "[REDACTED_TOKEN]".data else g

/-- The replacement string `[REDACTED]`. -/
def REDACTED : Str := "[REDACTED]".data

/-- The replacement string `[REDACTED_API_KEY]`. -/
def REDACTED_KEY : Str := "[REDACTED_API_KEY]".data

/-- The nine `dangerous_patterns` of `_sanitize_text`, in source order. -/
def commandPatterns : List (List Atom) :=
  [patRmRf, patCurl, patWget, patBash, patShSpace, patExecCall, patEvalCall,
   patOsSystem, patSubproc]

/-- The nine command-pattern substitutions of `_sanitize_text`, applied in
source order (the unrolled `for pattern in dangerous_patterns` loop). -/
def cmdPass (t : Str) : Str :=
  subst patSubproc REDACTED (subst patOsSystem REDACTED (subst patEvalCall REDACTED
    (subst patExecCall REDACTED (subst patShSpace REDACTED (subst patBash REDACTED
      (subst patWget REDACTED (subst patCurl REDACTED (subst patRmRf REDACTED t))))))))

/-- `_sanitize_text` on character lists. -/
def sanitizeL (t : Str) : Str :=
  if t.isEmpty then []
  else
    pyStrip (substFn patToken tokenRepl
      (subst patSk REDACTED_KEY (subst patAiza REDACTED_KEY (cmdPass t))))

/-- `_sanitize_text(text)`. -/
def sanitize_text (s : String) : String := (sanitizeL s.data).asString

/-! ## gemini_service.py: JSON payloads and Python coercions -/

/-- A decoded JSON value (the result of `json.loads`); numbers are modelled
as integers. -/
inductive Json where
  | null
  | bool (b : Bool)
  | num (n : Int)
  | str (s : String)
  | arr (elems : List Json)
  | obj (fields : List (String × Json))
deriving Repr, BEq, Inhabited

/-- `dict.get(k)`: last binding wins, as for duplicate keys in `json.loads`;
`none` on a missing key or a non-object. -/
def Json.get : Json → String → Option Json
  | .obj fields, k => fields.foldl (fun acc kv => if kv.1 == k then some kv.2 else acc) none
  | _, _ => none

/-- Python truthiness of a JSON value. -/
def Json.truthy : Json → Bool
  | .null => false
  | .bool b => b
  | .num n => n != 0
  | .str s => !(s == "")
  | .arr l => !l.isEmpty
  | .obj f => !f.isEmpty

/-- A single-quote string (avoids a quote character in source literals). -/
def sq : String := (Char.ofNat 39).toString

mutual
/-- Python `repr` of a JSON value (string escaping is not modelled). -/
def pyRepr : Json → String
  | .null => "None"
  | .bool true => "True"
  | .bool false => "False"
  | .num n => toString n
  | .str s => sq ++ s ++ sq
  | .arr l => "[" ++ ", ".intercalate (pyReprList l) ++ "]"
  | .obj f => "\x7b" ++ ", ".intercalate (pyReprFields f) ++ "\x7d"

/-- `repr` of each element of a JSON array. -/
def pyReprList : List Json → List String
  | [] => []
  | j :: t => pyRepr j :: pyReprList t

/-- `repr` of each binding of a JSON object. -/
def pyReprFields : List (String × Json) → List String
  | [] => []
  | kv :: t => (sq ++ kv.1 ++ sq ++ ": " ++ pyRepr kv.2) :: pyReprFields t
end

/-- Python `str()` of a JSON value. -/
def pyStr : Json → String
  | .str s => s
  | j => pyRepr j

/-- Python `str.lower()` on `String`. -/
def pyLower (s : String) : String := (lowerL s.data).asString

/-- Python `str.strip()` on `String`. -/
def pyStripS (s : String) : String := (pyStrip s.data).asString

/-- The exceptions of the SDK planning path.  `generate_attack_plan` catches
only `GeminiPlanError`; `TypeError` / `ValueError` / pydantic
`ValidationError` raised while converting the payload, and `AttributeError`
on a non-dict payload, propagate out of it uncaught. -/
inductive PyExc where
  | geminiPlanError (msg : String)
  | typeError (msg : String)
  | valueError (msg : String)
  | validationError (msg : String)
  | attributeError (msg : String)
deriving Repr, DecidableEq

/-- `int()` applied to a (truthy) JSON value. -/
def pyInt : Json → Except PyExc Int
  | .num n => .ok n
  | .bool b => .ok (if b then 1 else 0)
  | .str s =>
      match (pyStripS s).toInt? with
      | some n => .ok n
      | none => .error (.valueError "invalid literal for int()")
  | _ => .error (.typeError "int() argument")

/-! ## gemini_service.py: attack-plan construction and validation -/

/-- `_ALLOWED_SEVERITIES`. -/
def ALLOWED_SEVERITIES : List String := ["low", "medium", "high", "critical"]

/-- `_DEFAULT_OVERALL_SEVERITY`. -/
def DEFAULT_OVERALL_SEVERITY : String := "high"

/-- `_normalise_severity(value)`. -/
def normalise_severity : Option Json → String
  | some (.str s) =>
      let lowered := pyLower (pyStripS s)
      if ALLOWED_SEVERITIES.contains lowered then lowered else DEFAULT_OVERALL_SEVERITY
  | _ => DEFAULT_OVERALL_SEVERITY

/-- `_normalise_technique_id(value)`. -/
def normalise_technique_id : Option Json → String
  | some (.str s) =>
      if pyStripS s ≠ "" then
        let candidate := (upperL (pyStrip s.data))
        if startsWithL ['T'] candidate then candidate.asString
        else ('T' :: candidate).asString
      else "T0000"
  | _ => "T0000"

/-- `AttackStep` of `schemas.py`. -/
structure AttackStep where
  step_number : Int
  description : String
  technique_id : String
  severity : String
  affected_files : List String
deriving Repr, DecidableEq

/-- `AttackPlan` of `schemas.py`. -/
structure AttackPlan where
  repo_id : String
  overall_severity : String
  steps : List AttackStep
deriving Repr, DecidableEq

/-- Pydantic construction of an `AttackStep`: the schema declares
`step_number: int = Field(..., ge=1)`, so values below 1 raise a
`ValidationError`. -/
def mkAttackStep (n : Int) (d t sev : String) (files : List String) :
    Except PyExc AttackStep :=
  if n < 1 then .error (.validationError "step_number must be >= 1")
  else .ok { step_number := n, description := d, technique_id := t,
             severity := sev, affected_files := files }

/-- Python iteration over `raw_step.get("affected_files") or []` (after the
string-wrapping step): a string becomes a singleton, a list iterates its
elements, a dict iterates its keys, any other truthy value raises
`TypeError`; a falsy value was already replaced by `[]`. -/
def itemsOf (a : Json) : Except PyExc (List Json) :=
  if !a.truthy then .ok []
  else match a with
    | .str s => .ok [.str s]
    | .arr l => .ok l
    | .obj f => .ok (f.map (fun kv => .str kv.1))
    | _ => .error (.typeError "object is not iterable")

/-- `[path for path in affected_files_raw if path in valid_paths]`: a set
membership test on an unhashable element (list or dict) raises `TypeError`;
other non-strings are hashable and never equal to a string. -/
def filterAffected (validPaths : List String) : List Json → Except PyExc (List String)
  | [] => .ok []
  | .str s :: t =>
    match filterAffected validPaths t with
    | .error e => .error e
    | .ok acc => .ok (if validPaths.contains s then s :: acc else acc)
  | .arr _ :: _ => .error (.typeError "unhashable type")
  | .obj _ :: _ => .error (.typeError "unhashable type")
  | .null :: t => filterAffected validPaths t
  | .bool _ :: t => filterAffected validPaths t
  | .num _ :: t => filterAffected validPaths t

/-- `str(raw_step.get("description") or "").strip()`. -/
def descriptionOf (raw : Json) : String :=
  if ((raw.get "description").getD .null).truthy then
    pyStripS (pyStr ((raw.get "description").getD .null))
  else ""

/-- `int(raw_step.get("step_number") or index)`. -/
def stepNumberOf (raw : Json) (index : Nat) : Except PyExc Int :=
  if ((raw.get "step_number").getD .null).truthy then
    pyInt ((raw.get "step_number").getD .null)
  else .ok (index : Int)

/-- The `filtered_files` fallback: when the filtered list is empty and high
risk paths exist, substitute the `min(index - 1, len - 1)`-th of them. -/
def chooseAffected (filtered0 highRiskPaths : List String) (index : Nat) :
    List String :=
  if filtered0.isEmpty && !highRiskPaths.isEmpty then
    [highRiskPaths.getD (min (index - 1) (highRiskPaths.length - 1)) ""]
  else filtered0

/-- The loop body of `_plan_from_dict` over `steps_payload[:3]`, with
`index` enumerating from 1.  Python evaluation order is preserved: the
`affected_files` iteration (which can raise `TypeError`) happens before the
empty-description `continue`, and `int(...)` afterwards. -/
def buildPlanSteps (validPaths highRiskPaths : List String) :
    List Json → Nat → Except PyExc (List AttackStep)
  | [], _ => .ok []
  | raw :: rest, index =>
    match raw with
    | .obj _ =>
      match itemsOf ((raw.get "affected_files").getD .null) with
      | .error e => .error e
      | .ok items =>
        match filterAffected validPaths items with
        | .error e => .error e
        | .ok filtered0 =>
          if descriptionOf raw = "" then
            buildPlanSteps validPaths highRiskPaths rest (index + 1)
          else
            match stepNumberOf raw index with
            | .error e => .error e
            | .ok sn =>
              match mkAttackStep sn (descriptionOf raw)
                  (normalise_technique_id (raw.get "technique_id"))
                  (normalise_severity (raw.get "severity"))
                  (chooseAffected filtered0 highRiskPaths index) with
              | .error e => .error e
              | .ok step =>
                match buildPlanSteps validPaths highRiskPaths rest (index + 1) with
                | .error e => .error e
                | .ok others => .ok (step :: others)
    | .null => buildPlanSteps validPaths highRiskPaths rest (index + 1)
    | .bool _ => buildPlanSteps validPaths highRiskPaths rest (index + 1)
    | .num _ => buildPlanSteps validPaths highRiskPaths rest (index + 1)
    | .str _ => buildPlanSteps validPaths highRiskPaths rest (index + 1)
    | .arr _ => buildPlanSteps validPaths highRiskPaths rest (index + 1)

/-- `_plan_from_dict(repo_id, plan_payload, manifest, high_risk_files)`.
Failures keep their Python exception class: `GeminiPlanError` for a missing
or empty steps list and for no derivable steps; an `AttributeError` on a
non-dict payload (`plan_payload.get` fails) and the `TypeError` /
`ValueError` / `ValidationError` exceptions of the step loop propagate as
such. -/
def plan_from_dict (repoId : String) (payload : Json) (m : Manifest)
    (highRiskFiles : List FileRecord) : Except PyExc AttackPlan :=
  match payload with
  | .obj _ =>
    match payload.get "steps" with
    | some (.arr stepsList) =>
      if stepsList.isEmpty then
        .error (.geminiPlanError "Gemini response did not include any attack steps")
      else
        match buildPlanSteps (list_all_paths m) (pathsOf highRiskFiles)
            (stepsList.take 3) 1 with
        | .error e => .error e
        | .ok steps =>
          if steps.isEmpty then
            .error (.geminiPlanError "No valid attack steps could be derived from Gemini response")
          else
            .ok { repo_id := repoId
                  overall_severity := normalise_severity (payload.get "overall_severity")
                  steps := steps }
    | _ => .error (.geminiPlanError "Gemini response did not include any attack steps")
  | _ => .error (.attributeError "no attribute get")

/-! ## gemini_service.py: generate_attack_plan (SDK path) -/

/-- The static fallback `_build_default_plan(repo_id)`. -/
def build_default_plan (repoId : String) : AttackPlan :=
  { repo_id := repoId
    overall_severity := "critical"
    steps :=
      [{ step_number := 1
         description := "Initial access via exposed CI token in repository secrets."
         technique_id := "T1552"
         severity := "high"
         affected_files := [".github/workflows/deploy.yml"] },
       { step_number := 2
         description := "Privilege escalation through misconfigured Kubernetes RBAC manifests."
         technique_id := "T1068"
         severity := "critical"
         affected_files := ["deploy/k8s/rbac.yaml"] },
       { step_number := 3
         description := "Establish persistence by modifying container entrypoint script."
         technique_id := "T1547"
         severity := "medium"
         affected_files := ["docker/entrypoint.sh"] }] }

/-- `_generate_plan_with_gemini(repo_id, manifest)`: the network call and
`_parse_plan_json` are modelled by the `parsedResponse` oracle (the JSON
value extracted from the model text, or a failure).  `_invoke_gemini` and
`_parse_plan_json` raise only `GeminiPlanError`, so an oracle failure is a
`geminiPlanError`. -/
def generate_plan_with_gemini (repoId : String) (m : Manifest)
    (parsedResponse : Except String Json) : Except PyExc AttackPlan :=
  if (select_high_risk_files m 10).isEmpty then
    .error (.geminiPlanError "Manifest did not expose any high-risk files to analyse")
  else
    match parsedResponse with
    | .error e => .error (.geminiPlanError e)
    | .ok payload => plan_from_dict repoId payload m (select_high_risk_files m 10)

/-- `generate_attack_plan(repo_id)`: settings and the loaded manifest are
parameters.  The source's `except GeminiPlanError` catches only that class
and substitutes the static default plan; any other exception raised by
`_plan_from_dict` (`TypeError`, `ValueError`, `ValidationError`,
`AttributeError`) propagates to the caller. -/
def generate_attack_plan (repoId : String) (useGemini hasApiKey : Bool)
    (manifest : Option Manifest) (parsedResponse : Except String Json) :
    Except PyExc AttackPlan :=
  match manifest with
  | some m =>
    if useGemini && hasApiKey then
      match generate_plan_with_gemini repoId m parsedResponse with
      | .ok p => .ok p
      | .error (.geminiPlanError _) => .ok (build_default_plan repoId)
      | .error e => .error e
    else .ok (build_default_plan repoId)
  | none => .ok (build_default_plan repoId)

/-! ## gemini_service.py: generate_gemini_attack_plan (REST path) -/

/-- The repository profile consumed by `generate_gemini_attack_plan`. -/
structure RepoProfile where
  repo_id : String
  high_risk_files : List FileRecord
deriving Repr, DecidableEq

/-- The validated plan dictionary returned by
`_parse_and_validate_attack_plan`. -/
structure ValidatedPlan where
  overall_severity : String
  ai_insight : String
  steps : List AttackStep
deriving Repr, DecidableEq

/-- The loop body of `_parse_and_validate_attack_plan` over
`plan_data["steps"][:max_steps]`; `i` enumerates from 0 and also advances
over skipped non-dict entries. -/
def buildValidatedSteps (validFiles : List String) :
    List Json → Nat → List AttackStep
  | [], _ => []
  | raw :: rest, i =>
    match raw with
    | .obj _ =>
      let description :=
        sanitize_text (pyStripS (pyStr ((raw.get "description").getD (.str ""))))
      let severity0 := pyLower (pyStr ((raw.get "severity").getD (.str "medium")))
      let severity := if ALLOWED_SEVERITIES.contains severity0 then severity0 else "medium"
      let affected : List String :=
        match (raw.get "affected_files").getD (.arr []) with
        | .arr l =>
          (l.filterMap (fun j =>
            match j with
            | .str s =>
              if validFiles.contains s || validFiles.isEmpty then some s else none
            | _ => none)).take 5
        | _ => []
      let technique0 := pyStripS (pyStr ((raw.get "technique_id").getD (.str "")))
      let technique := if technique0 ≠ "" then technique0 else "N/A"
      { step_number := (i : Int) + 1
        description := description
        technique_id := technique
        severity := severity
        affected_files := affected } :: buildValidatedSteps validFiles rest (i + 1)
    | .null => buildValidatedSteps validFiles rest (i + 1)
    | .bool _ => buildValidatedSteps validFiles rest (i + 1)
    | .num _ => buildValidatedSteps validFiles rest (i + 1)
    | .str _ => buildValidatedSteps validFiles rest (i + 1)
    | .arr _ => buildValidatedSteps validFiles rest (i + 1)

/-- The validation part of `_parse_and_validate_attack_plan(raw_response,
repo_profile, max_steps)`, starting from the decoded JSON value (the
markdown stripping and `json.loads` of the raw text precede this). -/
def validate_attack_plan (planData : Json) (profile : RepoProfile)
    (maxSteps : Nat) : Except String ValidatedPlan :=
  match planData with
  | .obj _ =>
    match planData.get "steps" with
    | some (.arr stepsList) =>
      let validFiles := pathsOf profile.high_risk_files
      let sanitizedSteps := buildValidatedSteps validFiles (stepsList.take maxSteps) 0
      if sanitizedSteps.isEmpty then
        .error "No valid steps found in Gemini response"
      else
        let overall0 := pyLower (pyStr ((planData.get "overall_severity").getD (.str "high")))
        let overall :=
          if ALLOWED_SEVERITIES.contains overall0 then overall0
          else DEFAULT_OVERALL_SEVERITY
        let insight0 := pyStripS (pyStr ((planData.get "ai_insight").getD (.str "")))
        let insight :=
          if insight0 ≠ "" then sanitize_text insight0 else "AI-generated attack plan"
        .ok { overall_severity := overall, ai_insight := insight, steps := sanitizedSteps }
    | _ => .error "Gemini response missing steps array"
  | _ => .error "Gemini response is not a JSON object"

/-- The plan dictionary returned by `generate_gemini_attack_plan` (the
`gemini_prompt` / `gemini_raw_response` / `model_used` metadata fields are
not modelled). -/
structure GeminiPlan where
  repo_id : String
  overall_severity : String
  ai_insight : String
  steps : List AttackStep
  plan_source : String
deriving Repr, DecidableEq

/-- `_build_fallback_attack_plan(repo_id, source)`. -/
def build_fallback_attack_plan (repoId source : String) : GeminiPlan :=
  { repo_id := repoId
    overall_severity := "critical"
    ai_insight := "Deterministic fallback plan - Gemini unavailable"
    steps :=
      [{ step_number := 1
         description := "Initial access via exposed CI token in repository secrets"
         technique_id := "T1552"
         severity := "high"
         affected_files := [".github/workflows/deploy.yml"] },
       { step_number := 2
         description := "Privilege escalation through misconfigured Kubernetes RBAC manifests"
         technique_id := "T1068"
         severity := "critical"
         affected_files := ["deploy/k8s/rbac.yaml"] },
       { step_number := 3
         description := "Establish persistence by modifying container entrypoint script"
         technique_id := "T1547"
         severity := "medium"
         affected_files := ["docker/entrypoint.sh"] }]
    plan_source := source }

/-- One outcome of a `generate_gemini_response` call, as seen by the retry
loop: `err` covers both an `"error"` result dictionary and an unexpected
exception; `ok parsed` is a textual response whose JSON extraction by
`_parse_and_validate_attack_plan` yields `parsed` (`none` when no valid
JSON can be decoded from the text). -/
inductive GemResp where
  | err (msg : String)
  | ok (parsed : Option Json)

/-- `max_retries` of `generate_gemini_attack_plan`. -/
def MAX_RETRIES : Nat := 2

/-- The retry loop of `generate_gemini_attack_plan`: `resp i` is the outcome
of the `i`-th API call; returns the plan together with the number of calls
made.  Parse and validation failures fall back immediately; only `err`
outcomes consume the retry budget. -/
def attack_plan_loop (repoId : String) (profile : RepoProfile)
    (resp : Nat → GemResp) (calls retryCount : Nat) : GeminiPlan × Nat :=
  if retryCount > MAX_RETRIES then (build_fallback_attack_plan repoId "fallback", calls)
  else
    match resp calls with
    | .err _ =>
      if retryCount + 1 ≤ MAX_RETRIES then
        attack_plan_loop repoId profile resp (calls + 1) (retryCount + 1)
      else (build_fallback_attack_plan repoId "fallback", calls + 1)
    | .ok none => (build_fallback_attack_plan repoId "fallback", calls + 1)
    | .ok (some j) =>
      match validate_attack_plan j profile 3 with
      | .error _ => (build_fallback_attack_plan repoId "fallback", calls + 1)
      | .ok vp =>
        ({ repo_id := repoId
           overall_severity := vp.overall_severity
           ai_insight := vp.ai_insight
           steps := vp.steps
           plan_source := "gemini" }, calls + 1)
termination_by MAX_RETRIES + 1 - retryCount
decreasing_by
  simp [MAX_RETRIES] at *
  omega

/-- `generate_gemini_attack_plan(repo_profile, max_steps=3)`. -/
def gen_gemini_attack_plan (profile : RepoProfile) (useGemini hasApiKey : Bool)
    (resp : Nat → GemResp) : GeminiPlan × Nat :=
  if useGemini && hasApiKey then attack_plan_loop profile.repo_id profile resp 0 0
  else (build_fallback_attack_plan profile.repo_id "fallback", 0)

/-! ## General helper lemmas -/

lemma mem_of_containsStr {l : List String} {s : String} (h : l.contains s = true) :
    s ∈ l := by
  simpa using h

lemma assessRisk_fst_mem (rel : Str) :
    (assessRisk rel).1 ∈ (["low", "medium", "high"] : List String) := by
  unfold assessRisk
  dsimp only
  split_ifs <;> simp

/-! ## Retry-loop stepping lemmas -/

lemma loop_err_cont (repoId : String) (prof : RepoProfile) (resp : Nat → GemResp)
    (calls rc : Nat) (h : rc < MAX_RETRIES) (hm : ∃ m, resp calls = .err m) :
    attack_plan_loop repoId prof resp calls rc =
      attack_plan_loop repoId prof resp (calls + 1) (rc + 1) := by
  obtain ⟨msg, hm⟩ := hm
  rw [attack_plan_loop]
  simp only [MAX_RETRIES] at h ⊢
  rw [if_neg (by omega), hm]
  simp only
  rw [if_pos (by omega)]

lemma loop_err_stop (repoId : String) (prof : RepoProfile) (resp : Nat → GemResp)
    (calls rc : Nat) (h : rc = MAX_RETRIES) (hm : ∃ m, resp calls = .err m) :
    attack_plan_loop repoId prof resp calls rc =
      (build_fallback_attack_plan repoId "fallback", calls + 1) := by
  obtain ⟨msg, hm⟩ := hm
  rw [attack_plan_loop]
  simp only [MAX_RETRIES] at h ⊢
  rw [if_neg (by omega), hm]
  simp only
  rw [if_neg (by omega)]

lemma loop_parse_fail (repoId : String) (prof : RepoProfile) (resp : Nat → GemResp)
    (calls rc : Nat) (h : rc ≤ MAX_RETRIES) (hm : resp calls = .ok none) :
    attack_plan_loop repoId prof resp calls rc =
      (build_fallback_attack_plan repoId "fallback", calls + 1) := by
  rw [attack_plan_loop]
  simp only [MAX_RETRIES] at h ⊢
  rw [if_neg (by omega), hm]

lemma loop_validate_fail (repoId : String) (prof : RepoProfile) (resp : Nat → GemResp)
    (calls rc : Nat) (j : Json) (e : String) (h : rc ≤ MAX_RETRIES)
    (hm : resp calls = .ok (some j)) (hv : validate_attack_plan j prof 3 = .error e) :
    attack_plan_loop repoId prof resp calls rc =
      (build_fallback_attack_plan repoId "fallback", calls + 1) := by
  rw [attack_plan_loop]
  simp only [MAX_RETRIES] at h ⊢
  rw [if_neg (by omega), hm]
  simp only
  rw [hv]

lemma loop_validate_ok (repoId : String) (prof : RepoProfile) (resp : Nat → GemResp)
    (calls rc : Nat) (j : Json) (vp : ValidatedPlan) (h : rc ≤ MAX_RETRIES)
    (hm : resp calls = .ok (some j)) (hv : validate_attack_plan j prof 3 = .ok vp) :
    attack_plan_loop repoId prof resp calls rc =
      ({ repo_id := repoId
         overall_severity := vp.overall_severity
         ai_insight := vp.ai_insight
         steps := vp.steps
         plan_source := "gemini" }, calls + 1) := by
  rw [attack_plan_loop]
  simp only [MAX_RETRIES] at h ⊢
  rw [if_neg (by omega), hm]
  simp only
  rw [hv]

/-! ## C9: manifest counting invariants -/

/-- C9.  Every manifest produced by `_build_manifest` satisfies the counting
invariant: `file_count` is the length of `files`, `high_risk_file_count`
counts the entries whose `risk_level` is `"high"`, every entry's
`risk_level` is `low`, `medium` or `high`, and `top_extensions` has at most
5 entries. -/
theorem c9_manifest_invariants (repoId repoUrl owner name fetchedAt : String)
    (walk : List (String × Int)) :
    (buildManifest repoId repoUrl owner name fetchedAt walk).file_count =
      (buildManifest repoId repoUrl owner name fetchedAt walk).files.length ∧
    (buildManifest repoId repoUrl owner name fetchedAt walk).high_risk_file_count =
      ((buildManifest repoId repoUrl owner name fetchedAt walk).files.filter
        (fun f => f.risk_level == "high")).length ∧
    (∀ f ∈ (buildManifest repoId repoUrl owner name fetchedAt walk).files,
      f.risk_level ∈ (["low", "medium", "high"] : List String)) ∧
    (buildManifest repoId repoUrl owner name fetchedAt walk).top_extensions.length ≤ 5 := by
  refine ⟨rfl, rfl, ?_, ?_⟩
  · intro f hf
    simp only [buildManifest, List.mem_map] at hf
    obtain ⟨w, _, rfl⟩ := hf
    exact assessRisk_fst_mem w.1.data
  · simp only [buildManifest, List.length_take]
    omega

/-- Concrete instantiation of `c9_manifest_invariants`. -/
theorem c9_manifest_invariants_witness :
    (buildManifest "r" "u" "o" "n" "t" [(".env", (1 : Int)), ("run.sh", 2)]).high_risk_file_count =
      ((buildManifest "r" "u" "o" "n" "t" [(".env", (1 : Int)), ("run.sh", 2)]).files.filter
        (fun f => f.risk_level == "high")).length ∧
    (buildManifest "r" "u" "o" "n" "t" [(".env", (1 : Int)), ("run.sh", 2)]).top_extensions.length ≤ 5 :=
  ⟨(c9_manifest_invariants "r" "u" "o" "n" "t" [(".env", 1), ("run.sh", 2)]).2.1,
   (c9_manifest_invariants "r" "u" "o" "n" "t" [(".env", 1), ("run.sh", 2)]).2.2.2⟩

/-! ## C3: the deterministic fallback plan (corrected) -/

/-- The manifest of the C3 counterexample: one high-risk file, so the
planning path proceeds past the high-risk selection. -/
def c3Manifest : Manifest := buildManifest "repo-c3" "u" "o" "n" "t" [(".env", (1 : Int))]

/-- The payload of the C3 counterexample: a well-described step whose
`step_number` is `-1`, failing the pydantic `ge=1` validation. -/
def c3Payload : Json :=
  .obj [("steps", .arr [.obj [("description", .str "Escalate privileges via CI"),
                              ("step_number", .num (-1))]])]

/-- C3 counterexample.  The claim says that on any parse or validation
failure `generate_attack_plan` returns the fixed fallback plan.  The
source's `except GeminiPlanError` catches only that class: a payload whose
step carries `step_number = -1` makes `_plan_from_dict` raise a pydantic
`ValidationError`, which propagates out of `generate_attack_plan` — no plan
at all is returned. -/
theorem c3_counterexample :
    generate_attack_plan "repo-c3" true true (some c3Manifest) (.ok c3Payload) =
      .error (.validationError "step_number must be >= 1") ∧
    ∀ plan : AttackPlan,
      generate_attack_plan "repo-c3" true true (some c3Manifest) (.ok c3Payload) ≠
        .ok plan := by
  have h : generate_attack_plan "repo-c3" true true (some c3Manifest) (.ok c3Payload) =
      .error (.validationError "step_number must be >= 1") := by rfl
  refine ⟨h, fun plan hp => ?_⟩
  rw [h] at hp
  exact Except.noConfusion hp

/-- C3 amended.  `generate_attack_plan` substitutes the fixed static plan
exactly for the `GeminiPlanError` failures of the Gemini path (API failure,
unparseable JSON, missing / empty / underivable steps, no high-risk files);
an uncaught `TypeError` / `ValueError` / `ValidationError` /
`AttributeError` raised while converting the payload propagates with no
fallback.  The default plan is the fixed critical three-step plan, a
function of `repo_id` only (two `GeminiPlanError` runs agree); the REST
path's `generate_gemini_attack_plan` returns the same fixed steps with
`plan_source = "fallback"` under persistently failing API calls. -/
theorem c3_fallback_plan :
    (∀ (repoId : String) (ug hk : Bool) (m : Manifest) (pr : Except String Json)
       (e : String),
       generate_plan_with_gemini repoId m pr = .error (.geminiPlanError e) →
       generate_attack_plan repoId ug hk (some m) pr = .ok (build_default_plan repoId)) ∧
    (∀ (repoId : String) (m : Manifest) (pr : Except String Json) (exc : PyExc),
       generate_plan_with_gemini repoId m pr = .error exc →
       (∀ e, exc ≠ .geminiPlanError e) →
       generate_attack_plan repoId true true (some m) pr = .error exc) ∧
    (∀ repoId : String,
       build_default_plan repoId =
         { repo_id := repoId
           overall_severity := "critical"
           steps :=
             [{ step_number := 1
                description := "Initial access via exposed CI token in repository secrets."
                technique_id := "T1552"
                severity := "high"
                affected_files := [".github/workflows/deploy.yml"] },
              { step_number := 2
                description := "Privilege escalation through misconfigured Kubernetes RBAC manifests."
                technique_id := "T1068"
                severity := "critical"
                affected_files := ["deploy/k8s/rbac.yaml"] },
              { step_number := 3
                description := "Establish persistence by modifying container entrypoint script."
                technique_id := "T1547"
                severity := "medium"
                affected_files := ["docker/entrypoint.sh"] }] }) ∧
    (∀ (repoId : String) (ug1 hk1 ug2 hk2 : Bool) (m1 m2 : Manifest)
       (pr1 pr2 : Except String Json) (e1 e2 : String),
       generate_plan_with_gemini repoId m1 pr1 = .error (.geminiPlanError e1) →
       generate_plan_with_gemini repoId m2 pr2 = .error (.geminiPlanError e2) →
       generate_attack_plan repoId ug1 hk1 (some m1) pr1 =
         generate_attack_plan repoId ug2 hk2 (some m2) pr2) ∧
    (∀ repoId src : String,
       (build_fallback_attack_plan repoId src).overall_severity = "critical" ∧
       (build_fallback_attack_plan repoId src).plan_source = src ∧
       (build_fallback_attack_plan repoId src).steps =
         [{ step_number := 1
            description := "Initial access via exposed CI token in repository secrets"
            technique_id := "T1552"
            severity := "high"
            affected_files := [".github/workflows/deploy.yml"] },
          { step_number := 2
            description := "Privilege escalation through misconfigured Kubernetes RBAC manifests"
            technique_id := "T1068"
            severity := "critical"
            affected_files := ["deploy/k8s/rbac.yaml"] },
          { step_number := 3
            description := "Establish persistence by modifying container entrypoint script"
            technique_id := "T1547"
            severity := "medium"
            affected_files := ["docker/entrypoint.sh"] }]) ∧
    (∀ (prof : RepoProfile) (resp : Nat → GemResp),
       (∀ i, ∃ m, resp i = .err m) →
       gen_gemini_attack_plan prof true true resp =
         (build_fallback_attack_plan prof.repo_id "fallback", 3)) := by
  have hgem : ∀ (repoId : String) (ug hk : Bool) (m : Manifest)
      (pr : Except String Json) (e : String),
      generate_plan_with_gemini repoId m pr = .error (.geminiPlanError e) →
      generate_attack_plan repoId ug hk (some m) pr = .ok (build_default_plan repoId) := by
    intro repoId ug hk m pr e h
    simp only [generate_attack_plan]
    split
    · rw [h]
    · rfl
  refine ⟨hgem, ?_, fun _ => rfl, ?_, fun _ _ => ⟨rfl, rfl, rfl⟩, ?_⟩
  · intro repoId m pr exc h hne
    simp only [generate_attack_plan, Bool.and_self, if_true]
    rw [h]
    match exc, hne with
    | .geminiPlanError e, hne => exact absurd rfl (hne e)
    | .typeError e, _ => rfl
    | .valueError e, _ => rfl
    | .validationError e, _ => rfl
    | .attributeError e, _ => rfl
  · intro repoId ug1 hk1 ug2 hk2 m1 m2 pr1 pr2 e1 e2 h1 h2
    rw [hgem repoId ug1 hk1 m1 pr1 e1 h1, hgem repoId ug2 hk2 m2 pr2 e2 h2]
  · intro prof resp h
    have g : gen_gemini_attack_plan prof true true resp =
        attack_plan_loop prof.repo_id prof resp 0 0 := by
      simp [gen_gemini_attack_plan]
    rw [g, loop_err_cont _ _ _ _ _ (by simp [MAX_RETRIES]) (h 0),
        loop_err_cont _ _ _ _ _ (by simp [MAX_RETRIES]) (h 1),
        loop_err_stop _ _ _ _ _ (by simp [MAX_RETRIES]) (h 2)]

/-- Concrete instantiation of `c3_fallback_plan`: a parse failure (the
oracle yields a `GeminiPlanError`) produces the fixed default plan, a
`ValidationError` payload propagates as an error, and a persistently
failing REST loop yields the fallback plan after three calls. -/
theorem c3_fallback_plan_witness :
    generate_attack_plan "repo1" true true (some c3Manifest)
        (.error "Could not parse JSON from Gemini response") =
      .ok (build_default_plan "repo1") ∧
    generate_attack_plan "repo1" true true (some c3Manifest) (.ok c3Payload) =
      .error (.validationError "step_number must be >= 1") ∧
    gen_gemini_attack_plan { repo_id := "repo1", high_risk_files := [] } true true
        (fun _ => .err "Gemini API request timed out after 30 seconds") =
      (build_fallback_attack_plan "repo1" "fallback", 3) :=
  ⟨c3_fallback_plan.1 "repo1" true true _ _ _ (by rfl),
   c3_fallback_plan.2.1 "repo1" c3Manifest (.ok c3Payload)
     (.validationError "step_number must be >= 1") (by rfl)
     (fun e h => PyExc.noConfusion h),
   c3_fallback_plan.2.2.2.2.2 _ _ (fun i => ⟨_, rfl⟩)⟩

/-! ## C6: retry behaviour (corrected) -/

/-- A minimal payload that `_parse_and_validate_attack_plan` accepts (one
step dictionary; the empty description is tolerated). -/
def c6Payload : Json := .obj [("steps", .arr [.obj [("severity", .str "high")]])]

/-- A profile with no high-risk files. -/
def c6Profile : RepoProfile := { repo_id := "repo-c6", high_risk_files := [] }

/-- A response stream whose first response fails JSON extraction and whose
later responses carry a valid plan. -/
def c6Resp : Nat → GemResp :=
  fun i => if i = 0 then .ok none else .ok (some c6Payload)

/-- C6 counterexample.  The claim says every kind of failure is retried up
to the bound before the fallback is substituted.  With a retry budget of 2
remaining and a JSON-parse failure on the first call,
`generate_gemini_attack_plan` substitutes the fallback plan after a single
call, even though the next response validates successfully — parse and
validation failures are not retried. -/
theorem c6_counterexample :
    gen_gemini_attack_plan c6Profile true true c6Resp =
      (build_fallback_attack_plan "repo-c6" "fallback", 1) ∧
    (validate_attack_plan c6Payload c6Profile 3).isOk = true ∧
    (gen_gemini_attack_plan c6Profile true true c6Resp).1.plan_source ≠ "gemini" := by
  have g : gen_gemini_attack_plan c6Profile true true c6Resp =
      attack_plan_loop "repo-c6" c6Profile c6Resp 0 0 := by
    simp [gen_gemini_attack_plan, c6Profile]
  have l : attack_plan_loop "repo-c6" c6Profile c6Resp 0 0 =
      (build_fallback_attack_plan "repo-c6" "fallback", 1) :=
    loop_parse_fail _ _ _ _ _ (by simp [MAX_RETRIES]) rfl
  refine ⟨g.trans l, by decide, ?_⟩
  rw [g, l]
  decide

/-- C6 amended.  `generate_gemini_attack_plan` retries only failures that
surface as API-call errors (an `"error"` result or an exception), up to
`max_retries = 2` (three calls in total); JSON-parse failures and
schema-validation failures substitute the fallback plan immediately,
without consuming the remaining retry budget; and `generate_attack_plan`
performs no retries at all — its single model interaction failing in any
way yields the static default plan directly. -/
theorem c6_retry_behaviour :
    (∀ (repoId : String) (prof : RepoProfile) (resp : Nat → GemResp) (calls rc : Nat),
       rc < MAX_RETRIES → (∃ m, resp calls = .err m) →
       attack_plan_loop repoId prof resp calls rc =
         attack_plan_loop repoId prof resp (calls + 1) (rc + 1)) ∧
    (∀ (repoId : String) (prof : RepoProfile) (resp : Nat → GemResp) (calls : Nat),
       (∃ m, resp calls = .err m) →
       attack_plan_loop repoId prof resp calls MAX_RETRIES =
         (build_fallback_attack_plan repoId "fallback", calls + 1)) ∧
    (∀ (repoId : String) (prof : RepoProfile) (resp : Nat → GemResp) (calls rc : Nat),
       rc ≤ MAX_RETRIES → resp calls = .ok none →
       attack_plan_loop repoId prof resp calls rc =
         (build_fallback_attack_plan repoId "fallback", calls + 1)) ∧
    (∀ (repoId : String) (prof : RepoProfile) (resp : Nat → GemResp) (calls rc : Nat)
       (j : Json) (e : String),
       rc ≤ MAX_RETRIES → resp calls = .ok (some j) →
       validate_attack_plan j prof 3 = .error e →
       attack_plan_loop repoId prof resp calls rc =
         (build_fallback_attack_plan repoId "fallback", calls + 1)) ∧
    (∀ (prof : RepoProfile) (resp : Nat → GemResp),
       (∀ i, ∃ m, resp i = .err m) →
       (gen_gemini_attack_plan prof true true resp).2 = 3) ∧
    (∀ (repoId : String) (ug hk : Bool) (m : Manifest) (e : String),
       generate_attack_plan repoId ug hk (some m) (.error e) =
         .ok (build_default_plan repoId)) := by
  refine ⟨loop_err_cont, ?_, loop_parse_fail, ?_, ?_, ?_⟩
  · intro repoId prof resp calls hm
    exact loop_err_stop repoId prof resp calls MAX_RETRIES rfl hm
  · intro repoId prof resp calls rc j e h hm hv
    exact loop_validate_fail repoId prof resp calls rc j e h hm hv
  · intro prof resp h
    have g : gen_gemini_attack_plan prof true true resp =
        attack_plan_loop prof.repo_id prof resp 0 0 := by
      simp [gen_gemini_attack_plan]
    rw [g, loop_err_cont _ _ _ _ _ (by simp [MAX_RETRIES]) (h 0),
        loop_err_cont _ _ _ _ _ (by simp [MAX_RETRIES]) (h 1),
        loop_err_stop _ _ _ _ _ (by simp [MAX_RETRIES]) (h 2)]
  · intro repoId ug hk m e
    simp only [generate_attack_plan]
    split
    · cases hsel : (select_high_risk_files m 10).isEmpty <;>
        simp [generate_plan_with_gemini, hsel]
    · rfl

/-- Concrete instantiation of `c6_retry_behaviour`. -/
theorem c6_retry_behaviour_witness :
    attack_plan_loop "w" c6Profile (fun _ => .err "x") 0 0 =
      attack_plan_loop "w" c6Profile (fun _ => .err "x") 1 1 ∧
    attack_plan_loop "w" c6Profile (fun _ => .ok none) 5 1 =
      (build_fallback_attack_plan "w" "fallback", 6) ∧
    generate_attack_plan "w" true true
        (some (buildManifest "w" "u" "o" "n" "t" [(".env", (1 : Int))])) (.error "parse") =
      .ok (build_default_plan "w") :=
  ⟨c6_retry_behaviour.1 "w" c6Profile _ 0 0 (by simp [MAX_RETRIES]) ⟨"x", rfl⟩,
   c6_retry_behaviour.2.2.1 "w" c6Profile _ 5 1 (by simp [MAX_RETRIES]) rfl,
   c6_retry_behaviour.2.2.2.2.2 "w" true true _ "parse"⟩

/-! ## C4: overall severity -/

lemma severity_default_mem : DEFAULT_OVERALL_SEVERITY ∈ ALLOWED_SEVERITIES := by
  decide

lemma normalise_severity_mem (v : Option Json) :
    normalise_severity v ∈ ALLOWED_SEVERITIES := by
  match v with
  | none => exact severity_default_mem
  | some .null => exact severity_default_mem
  | some (.bool b) => exact severity_default_mem
  | some (.num n) => exact severity_default_mem
  | some (.arr l) => exact severity_default_mem
  | some (.obj f) => exact severity_default_mem
  | some (.str s) =>
    unfold normalise_severity
    dsimp only
    split
    · exact mem_of_containsStr ‹_›
    · exact severity_default_mem

lemma plan_from_dict_ok_overall {repoId : String} {payload : Json} {m : Manifest}
    {hrf : List FileRecord} {plan : AttackPlan}
    (h : plan_from_dict repoId payload m hrf = .ok plan) :
    plan.overall_severity = normalise_severity (payload.get "overall_severity") := by
  unfold plan_from_dict at h
  split at h
  · split at h
    · split at h
      · simp at h
      · split at h
        · simp at h
        · split at h
          · simp at h
          · rw [← (Except.ok.injEq _ _).mp h]
    · simp at h
  · simp at h

lemma validate_ok_overall_eq {pd : Json} {prof : RepoProfile} {ms : Nat}
    {vp : ValidatedPlan} (h : validate_attack_plan pd prof ms = .ok vp) :
    vp.overall_severity =
      (if ALLOWED_SEVERITIES.contains
            (pyLower (pyStr ((pd.get "overall_severity").getD (.str "high")))) = true
       then pyLower (pyStr ((pd.get "overall_severity").getD (.str "high")))
       else DEFAULT_OVERALL_SEVERITY) := by
  unfold validate_attack_plan at h
  split at h
  · split at h
    · dsimp only at h
      split at h
      · simp at h
      · rw [← (Except.ok.injEq _ _).mp h]
    · simp at h
  · simp at h

/-- C4.  Every attack plan that passes validation has an
`overall_severity` in `{low, medium, high, critical}`, for both
`_plan_from_dict` and `_parse_and_validate_attack_plan`; values outside
the set — and, for `_normalise_severity`, non-string values — are replaced
by the default severity `"high"`. -/
theorem c4_overall_severity :
    (∀ (repoId : String) (payload : Json) (m : Manifest) (hrf : List FileRecord)
       (plan : AttackPlan),
       plan_from_dict repoId payload m hrf = .ok plan →
       plan.overall_severity ∈ ALLOWED_SEVERITIES) ∧
    (∀ (pd : Json) (prof : RepoProfile) (ms : Nat) (vp : ValidatedPlan),
       validate_attack_plan pd prof ms = .ok vp →
       vp.overall_severity ∈ ALLOWED_SEVERITIES) ∧
    (∀ v : Option Json, normalise_severity v ∈ ALLOWED_SEVERITIES) ∧
    (normalise_severity none = DEFAULT_OVERALL_SEVERITY) ∧
    (∀ j : Json, (∀ s, j ≠ .str s) →
       normalise_severity (some j) = DEFAULT_OVERALL_SEVERITY) ∧
    (∀ s : String, ALLOWED_SEVERITIES.contains (pyLower (pyStripS s)) = false →
       normalise_severity (some (.str s)) = DEFAULT_OVERALL_SEVERITY) ∧
    (∀ (pd : Json) (prof : RepoProfile) (ms : Nat) (vp : ValidatedPlan),
       validate_attack_plan pd prof ms = .ok vp →
       ALLOWED_SEVERITIES.contains
         (pyLower (pyStr ((pd.get "overall_severity").getD (.str "high")))) = false →
       vp.overall_severity = DEFAULT_OVERALL_SEVERITY) := by
  refine ⟨?_, ?_, normalise_severity_mem, rfl, ?_, ?_, ?_⟩
  · intro repoId payload m hrf plan h
    rw [plan_from_dict_ok_overall h]
    exact normalise_severity_mem _
  · intro pd prof ms vp h
    rw [validate_ok_overall_eq h]
    split
    · exact mem_of_containsStr ‹_›
    · decide
  · intro j hj
    match j with
    | .null => rfl
    | .bool b => rfl
    | .num n => rfl
    | .arr l => rfl
    | .obj f => rfl
    | .str s => exact absurd rfl (hj s)
  · intro s h
    unfold normalise_severity
    dsimp only
    rw [if_neg (by rw [h]; simp)]
  · intro pd prof ms vp h hc
    rw [validate_ok_overall_eq h, if_neg (by rw [hc]; simp)]

/-- Concrete instantiation of `c4_overall_severity`. -/
theorem c4_overall_severity_witness :
    (AttackPlan.mk "w4" "critical"
      [{ step_number := 1, description := "x", technique_id := "T0000",
         severity := "high", affected_files := [] }]).overall_severity ∈ ALLOWED_SEVERITIES ∧
    normalise_severity (some (.str "CRITICAL ")) ∈ ALLOWED_SEVERITIES := by
  constructor
  · refine c4_overall_severity.1 "w4"
      (.obj [("steps", .arr [.obj [("description", .str "x")]]),
             ("overall_severity", .str "CRITICAL ")])
      { repo_id := "w4", repo_url := "", owner := "", name := "", fetched_at := "",
        file_count := 0, high_risk_file_count := 0, files := [], top_extensions := [] }
      [] _ (by rfl)
  · exact c4_overall_severity.2.2.1 (some (.str "CRITICAL "))

/-! ## Step soundness lemmas for the two validators -/

lemma mkAttackStep_ok {n : Int} {d t sv : String} {fs : List String} {st : AttackStep}
    (h : mkAttackStep n d t sv fs = .ok st) :
    st = { step_number := n, description := d, technique_id := t,
           severity := sv, affected_files := fs } ∧ 1 ≤ n := by
  unfold mkAttackStep at h
  split at h
  · simp at h
  · exact ⟨((Except.ok.injEq _ _).mp h).symm, by omega⟩

lemma filterAffected_sound {valid : List String} :
    ∀ {items : List Json} {acc : List String},
      filterAffected valid items = .ok acc → ∀ p ∈ acc, p ∈ valid := by
  intro items
  induction items with
  | nil => intro acc h p hp; simp [filterAffected] at h; subst h; simp at hp
  | cons j t ih =>
    intro acc h p hp
    match j with
    | .str s =>
      rw [filterAffected] at h
      split at h
      · simp at h
      · next acc0 heq =>
          rw [← (Except.ok.injEq _ _).mp h] at hp
          split at hp
          · rcases List.mem_cons.mp hp with rfl | hp0
            · exact mem_of_containsStr ‹_›
            · exact ih heq p hp0
          · exact ih heq p hp
    | .arr l => rw [filterAffected] at h; simp at h
    | .obj f => rw [filterAffected] at h; simp at h
    | .null => rw [filterAffected] at h; exact ih h p hp
    | .bool b => rw [filterAffected] at h; exact ih h p hp
    | .num n => rw [filterAffected] at h; exact ih h p hp

lemma chooseAffected_sound {valid f0 hr : List String} {index : Nat}
    (hf : ∀ q ∈ f0, q ∈ valid) :
    ∀ p ∈ chooseAffected f0 hr index, p ∈ valid ∨ p ∈ hr := by
  intro p hp
  unfold chooseAffected at hp
  split at hp
  · next hcond =>
      rcases List.mem_singleton.mp hp with rfl
      right
      have hne : hr ≠ [] := by
        have hc := hcond
        simp only [Bool.and_eq_true] at hc
        intro hnil
        rw [hnil] at hc
        simp at hc
      have hlt : min (index - 1) (hr.length - 1) < hr.length := by
        have : 0 < hr.length := List.length_pos.mpr hne
        omega
      rw [List.getD_eq_getElem _ _ hlt]
      exact List.getElem_mem hlt
  · exact .inl (hf p hp)

lemma buildPlanSteps_sound {valid hr : List String} :
    ∀ (l : List Json) (idx : Nat) (steps : List AttackStep),
      buildPlanSteps valid hr l idx = .ok steps →
      steps.length ≤ l.length ∧
      ∀ st ∈ steps,
        st.description ≠ "" ∧ st.severity ∈ ALLOWED_SEVERITIES ∧
        1 ≤ st.step_number ∧ (∀ p ∈ st.affected_files, p ∈ valid ∨ p ∈ hr) := by
  intro l
  induction l with
  | nil =>
    intro idx steps h
    rw [buildPlanSteps] at h
    rw [← (Except.ok.injEq _ _).mp h]
    exact ⟨by simp, by simp⟩
  | cons raw rest ih =>
    intro idx steps h
    match raw with
    | .null | .bool _ | .num _ | .str _ | .arr _ =>
      rw [buildPlanSteps] at h
      obtain ⟨hlen, hmem⟩ := ih (idx + 1) steps h
      exact ⟨by simp; omega, hmem⟩
    | .obj fields =>
      rw [buildPlanSteps] at h
      split at h
      · simp at h
      · split at h
        · simp at h
        · split at h
          · obtain ⟨hlen, hmem⟩ := ih (idx + 1) steps h
            exact ⟨by simp; omega, hmem⟩
          · next hdesc =>
            split at h
            · simp at h
            · split at h
              · simp at h
              · next step hstep =>
                  split at h
                  · simp at h
                  · next others hothers =>
                      rw [← (Except.ok.injEq _ _).mp h]
                      obtain ⟨hstepEq, hsn⟩ := mkAttackStep_ok hstep
                      obtain ⟨hlen, hmem⟩ := ih (idx + 1) others hothers
                      constructor
                      · simp; omega
                      · intro st hst
                        rcases List.mem_cons.mp hst with rfl | hst0
                        · subst hstepEq
                          exact ⟨hdesc, normalise_severity_mem _, hsn,
                            chooseAffected_sound (filterAffected_sound ‹_›)⟩
                        · exact hmem st hst0

lemma buildValidatedSteps_sound {valid : List String} :
    ∀ (l : List Json) (i : Nat),
      (buildValidatedSteps valid l i).length ≤ l.length ∧
      ∀ st ∈ buildValidatedSteps valid l i,
        st.severity ∈ ALLOWED_SEVERITIES ∧ st.technique_id ≠ "" ∧
        1 ≤ st.step_number ∧ st.affected_files.length ≤ 5 ∧
        (valid ≠ [] → ∀ p ∈ st.affected_files, p ∈ valid) ∧
        (∃ raw, st.description = sanitize_text raw) := by
  intro l
  induction l with
  | nil => intro i; simp [buildValidatedSteps]
  | cons raw rest ih =>
    intro i
    match raw with
    | .null | .bool _ | .num _ | .str _ | .arr _ =>
      rw [buildValidatedSteps]
      obtain ⟨hlen, hmem⟩ := ih (i + 1)
      exact ⟨by simp; omega, hmem⟩
    | .obj fields =>
      rw [buildValidatedSteps]
      obtain ⟨hlen, hmem⟩ := ih (i + 1)
      constructor
      · simp; omega
      · intro st hst
        rcases List.mem_cons.mp hst with rfl | hst0
        · refine ⟨?_, ?_, by dsimp only; omega, ?_, ?_, ⟨_, rfl⟩⟩
          · dsimp only
            split
            · exact mem_of_containsStr ‹_›
            · decide
          · dsimp only
            split
            · assumption
            · decide
          · dsimp only
            split
            · simp [List.length_take]
            · simp
          · intro hvne p hp
            dsimp only at hp
            split at hp
            · have hp2 := List.mem_of_mem_take hp
              obtain ⟨j, -, hj⟩ := List.mem_filterMap.mp hp2
              match j with
              | .str s =>
                dsimp only at hj
                split at hj
                · next hcond =>
                    cases hj
                    simp only [Bool.or_eq_true] at hcond
                    rcases hcond with hc | he
                    · exact mem_of_containsStr hc
                    · exact absurd (by simpa using he) hvne
                · cases hj
              | .null | .bool _ | .num _ | .arr _ | .obj _ => simp at hj
            · simp at hp
        · exact hmem st hst0

lemma plan_from_dict_ok_steps {repoId : String} {payload : Json} {m : Manifest}
    {hrf : List FileRecord} {plan : AttackPlan}
    (h : plan_from_dict repoId payload m hrf = .ok plan) :
    ∃ stepsList : List Json,
      payload.get "steps" = some (.arr stepsList) ∧
      buildPlanSteps (list_all_paths m) (pathsOf hrf) (stepsList.take 3) 1 = .ok plan.steps ∧
      plan.steps ≠ [] := by
  unfold plan_from_dict at h
  split at h
  · split at h
    · next stepsList heq =>
      split at h
      · simp at h
      · split at h
        · simp at h
        · next steps hbuild =>
          split at h
          · simp at h
          · next hne =>
            have hplan := (Except.ok.injEq _ _).mp h
            refine ⟨stepsList, heq, ?_, ?_⟩
            · rw [← hplan]
              exact hbuild
            · rw [← hplan]
              simpa using hne
    · simp at h
  · simp at h

lemma validate_ok_inv {pd : Json} {prof : RepoProfile} {ms : Nat} {vp : ValidatedPlan}
    (h : validate_attack_plan pd prof ms = .ok vp) :
    ∃ stepsList : List Json,
      pd.get "steps" = some (.arr stepsList) ∧
      vp.steps = buildValidatedSteps (pathsOf prof.high_risk_files) (stepsList.take ms) 0 ∧
      vp.steps ≠ [] ∧
      (vp.ai_insight = "AI-generated attack plan" ∨ ∃ raw, vp.ai_insight = sanitize_text raw) := by
  unfold validate_attack_plan at h
  split at h
  · split at h
    · next stepsList heq =>
      dsimp only at h
      split at h
      · simp at h
      · next hne =>
        have hrec := (Except.ok.injEq _ _).mp h
        refine ⟨stepsList, heq, ?_, ?_, ?_⟩
        · rw [← hrec]
        · rw [← hrec]
          simpa using hne
        · rw [← hrec]
          dsimp only
          split
          · exact .inr ⟨_, rfl⟩
          · exact .inl rfl
    · simp at h
  · simp at h

/-! ## C5: step field constraints (corrected) -/

/-- A payload whose only step has no description at all. -/
def c5Payload : Json := .obj [("steps", .arr [.obj [("technique_id", .str "T1068")]])]

/-- A profile for the C5 counterexample. -/
def c5Profile : RepoProfile := { repo_id := "repo-c5", high_risk_files := [] }

/-- C5 counterexample.  The claim requires every step of a validated plan to
carry a non-empty description, but `_parse_and_validate_attack_plan` accepts
a step dictionary with no description and returns it with `description = ""`
(only `_plan_from_dict` skips empty descriptions). -/
theorem c5_counterexample :
    validate_attack_plan c5Payload c5Profile 3 =
      .ok { overall_severity := "high"
            ai_insight := "AI-generated attack plan"
            steps := [{ step_number := 1, description := "", technique_id := "T1068",
                        severity := "medium", affected_files := [] }] } := by
  rfl

/-- C5 amended.  Every plan accepted by `_plan_from_dict` has 1–3 steps,
each with a non-empty description, a severity in the allowed set and a
step number of at least 1, with `_normalise_technique_id` supplying the
sentinel `"T0000"` when the model gave no usable string; every plan
accepted by `_parse_and_validate_attack_plan` (with `max_steps = 3`) has
1–3 steps, each with a severity in the allowed set, a non-empty
technique id (the sentinel there is `"N/A"`), a step number of at least 1
and at most 5 affected files — but its step descriptions may be empty. -/
theorem c5_step_fields :
    (∀ (repoId : String) (payload : Json) (m : Manifest) (hrf : List FileRecord)
       (plan : AttackPlan),
       plan_from_dict repoId payload m hrf = .ok plan →
       1 ≤ plan.steps.length ∧ plan.steps.length ≤ 3 ∧
       ∀ st ∈ plan.steps,
         st.description ≠ "" ∧ st.severity ∈ ALLOWED_SEVERITIES ∧ 1 ≤ st.step_number) ∧
    (normalise_technique_id none = "T0000") ∧
    (∀ j : Json, (∀ s, j ≠ .str s) → normalise_technique_id (some j) = "T0000") ∧
    (∀ s : String, pyStripS s = "" → normalise_technique_id (some (.str s)) = "T0000") ∧
    (∀ (pd : Json) (prof : RepoProfile) (vp : ValidatedPlan),
       validate_attack_plan pd prof 3 = .ok vp →
       1 ≤ vp.steps.length ∧ vp.steps.length ≤ 3 ∧
       ∀ st ∈ vp.steps,
         st.severity ∈ ALLOWED_SEVERITIES ∧ st.technique_id ≠ "" ∧
         1 ≤ st.step_number ∧ st.affected_files.length ≤ 5) ∧
    (∀ (valid : List String) (f : List (String × Json)) (rest : List Json) (i : Nat),
       pyStripS (pyStr (((Json.obj f).get "technique_id").getD (.str ""))) = "" →
       ∃ st others, buildValidatedSteps valid (.obj f :: rest) i = st :: others ∧
         st.technique_id = "N/A") := by
  refine ⟨?_, rfl, ?_, ?_, ?_, ?_⟩
  · intro repoId payload m hrf plan h
    obtain ⟨stepsList, -, hbuild, hne⟩ := plan_from_dict_ok_steps h
    obtain ⟨hlen, hmem⟩ := buildPlanSteps_sound _ _ _ hbuild
    refine ⟨?_, ?_, fun st hst => ⟨(hmem st hst).1, (hmem st hst).2.1, (hmem st hst).2.2.1⟩⟩
    · have := List.length_pos.mpr hne
      omega
    · have : (stepsList.take 3).length ≤ 3 := by
        simp [List.length_take]
      omega
  · intro j hj
    match j with
    | .null => rfl
    | .bool b => rfl
    | .num n => rfl
    | .arr l => rfl
    | .obj f => rfl
    | .str s => exact absurd rfl (hj s)
  · intro s h
    unfold normalise_technique_id
    dsimp only
    rw [if_neg (by simp [h])]
  · intro pd prof vp h
    obtain ⟨stepsList, -, hsteps, hne, -⟩ := validate_ok_inv h
    obtain ⟨hlen, hmem⟩ := buildValidatedSteps_sound (stepsList.take 3) 0
    rw [← hsteps] at hlen hmem
    refine ⟨?_, ?_, fun st hst => ⟨(hmem st hst).1, (hmem st hst).2.1,
      (hmem st hst).2.2.1, (hmem st hst).2.2.2.1⟩⟩
    · have := List.length_pos.mpr hne
      omega
    · have : (stepsList.take 3).length ≤ 3 := by
        simp [List.length_take]
      omega
  · intro valid f rest i h
    rw [buildValidatedSteps]
    refine ⟨_, _, rfl, ?_⟩
    dsimp only
    rw [if_neg (by simp [h])]

/-- Concrete instantiation of `c5_step_fields`. -/
theorem c5_step_fields_witness :
    normalise_technique_id (some (.num 1552)) = "T0000" ∧
    normalise_technique_id (some (.str "   ")) = "T0000" :=
  ⟨c5_step_fields.2.2.1 (.num 1552) (fun s => by simp),
   c5_step_fields.2.2.2.1 "   " (by rfl)⟩

/-! ## C1: affected files restricted to known paths (corrected) -/

lemma insBy_mem {le : FileRecord → FileRecord → Bool} {x y : FileRecord}
    {l : List FileRecord} (h : x ∈ insBy le y l) : x = y ∨ x ∈ l := by
  induction l with
  | nil =>
    unfold insBy at h
    exact .inl (List.mem_singleton.mp h)
  | cons z t ih =>
    unfold insBy at h
    split at h
    · rcases List.mem_cons.mp h with rfl | h0
      · exact .inr (List.mem_cons_self _ _)
      · rcases ih h0 with rfl | hmem
        · exact .inl rfl
        · exact .inr (List.mem_cons_of_mem _ hmem)
    · rcases List.mem_cons.mp h with rfl | h0
      · exact .inl rfl
      · exact .inr h0

lemma sortBy_mem {le : FileRecord → FileRecord → Bool} {x : FileRecord}
    {l : List FileRecord} (h : x ∈ sortBy le l) : x ∈ l := by
  induction l with
  | nil => simp [sortBy] at h
  | cons z t ih =>
    rcases insBy_mem (h : x ∈ insBy le z (sortBy le t)) with rfl | h0
    · exact List.mem_cons_self _ _
    · exact List.mem_cons_of_mem _ (ih h0)

lemma select_high_risk_files_subset {m : Manifest} {lim : Nat} {x : FileRecord}
    (h : x ∈ select_high_risk_files m lim) : x ∈ m.files := by
  unfold select_high_risk_files at h
  dsimp only at h
  split at h
  · have h1 := sortBy_mem (List.mem_of_mem_take h)
    exact List.mem_of_mem_filter h1
  · exact sortBy_mem (List.mem_of_mem_take h)

lemma mem_pathsOf {files : List FileRecord} {p : String} :
    p ∈ pathsOf files ↔ ∃ f ∈ files, f.path = p ∧ p ≠ "" := by
  unfold pathsOf
  rw [List.mem_filterMap]
  constructor
  · rintro ⟨f, hf, hsome⟩
    split at hsome
    · cases hsome
      exact ⟨f, hf, rfl, ‹_›⟩
    · cases hsome
  · rintro ⟨f, hf, rfl, hne⟩
    exact ⟨f, hf, by simp [hne]⟩

lemma pathsOf_select_subset {m : Manifest} {lim : Nat} {p : String}
    (h : p ∈ pathsOf (select_high_risk_files m lim)) : p ∈ list_all_paths m := by
  obtain ⟨f, hf, rfl, hne⟩ := mem_pathsOf.mp h
  exact mem_pathsOf.mpr ⟨f, select_high_risk_files_subset hf, rfl, hne⟩

/-- A payload whose only step names a file that is not among the profile's
high-risk paths. -/
def c1Payload : Json :=
  .obj [("steps", .arr [.obj [("affected_files", .arr [.str "evil.txt"])]])]

/-- A profile with no high-risk files at all. -/
def c1Profile : RepoProfile := { repo_id := "repo-c1", high_risk_files := [] }

/-- C1 counterexample.  The claim says every path in a step returned by
`_parse_and_validate_attack_plan` is a member of the high-risk file paths of
the given `repo_profile`.  With an empty high-risk set, the filter
`f in valid_files or not valid_files` passes every string through:
`"evil.txt"` is returned although the profile's high-risk path set is
empty. -/
theorem c1_counterexample :
    validate_attack_plan c1Payload c1Profile 3 =
      .ok { overall_severity := "high"
            ai_insight := "AI-generated attack plan"
            steps := [{ step_number := 1, description := "", technique_id := "N/A",
                        severity := "medium", affected_files := ["evil.txt"] }] } ∧
    pathsOf c1Profile.high_risk_files = [] := ⟨rfl, rfl⟩

/-- C1 amended.  Every path in every step of a plan accepted by
`_plan_from_dict` (with the high-risk files selected from the manifest, as
its caller `_generate_plan_with_gemini` does) is a member of
`list_all_paths(manifest)`; and every path in every step returned by
`_parse_and_validate_attack_plan` is a member of the high-risk file paths of
the `repo_profile` provided that this set is non-empty — when the profile
exposes no high-risk paths, arbitrary string paths pass the filter. -/
theorem c1_affected_files :
    (∀ (repoId : String) (m : Manifest) (pr : Except String Json) (plan : AttackPlan),
       generate_plan_with_gemini repoId m pr = .ok plan →
       ∀ st ∈ plan.steps, ∀ p ∈ st.affected_files, p ∈ list_all_paths m) ∧
    (∀ (repoId : String) (payload : Json) (m : Manifest) (plan : AttackPlan),
       plan_from_dict repoId payload m (select_high_risk_files m 10) = .ok plan →
       ∀ st ∈ plan.steps, ∀ p ∈ st.affected_files, p ∈ list_all_paths m) ∧
    (∀ (pd : Json) (prof : RepoProfile) (ms : Nat) (vp : ValidatedPlan),
       validate_attack_plan pd prof ms = .ok vp →
       pathsOf prof.high_risk_files ≠ [] →
       ∀ st ∈ vp.steps, ∀ p ∈ st.affected_files, p ∈ pathsOf prof.high_risk_files) := by
  have hpfd : ∀ (repoId : String) (payload : Json) (m : Manifest) (plan : AttackPlan),
      plan_from_dict repoId payload m (select_high_risk_files m 10) = .ok plan →
      ∀ st ∈ plan.steps, ∀ p ∈ st.affected_files, p ∈ list_all_paths m := by
    intro repoId payload m plan h st hst p hp
    obtain ⟨stepsList, -, hbuild, -⟩ := plan_from_dict_ok_steps h
    obtain ⟨-, hmem⟩ := buildPlanSteps_sound _ _ _ hbuild
    rcases (hmem st hst).2.2.2 p hp with hvalid | hhr
    · exact hvalid
    · exact pathsOf_select_subset hhr
  refine ⟨?_, hpfd, ?_⟩
  · intro repoId m pr plan h
    unfold generate_plan_with_gemini at h
    split at h
    · simp at h
    · split at h
      · simp at h
      · exact hpfd repoId _ m plan h
  · intro pd prof ms vp h hne st hst p hp
    obtain ⟨stepsList, -, hsteps, -, -⟩ := validate_ok_inv h
    obtain ⟨-, hmem⟩ := buildValidatedSteps_sound (stepsList.take ms) 0
    rw [← hsteps] at hmem
    exact (hmem st hst).2.2.2.2.1 hne p hp

/-- Concrete instantiation of `c1_affected_files`: a validated plan against
a profile with one high-risk file keeps only that file's path. -/
theorem c1_affected_files_witness :
    "conf/app.yaml" ∈ pathsOf
      [{ path := "conf/app.yaml", size := 2, extension := ".yaml",
         risk_level := "high", risk_reasons := ["r"] }] := by
  refine c1_affected_files.2.2
    (.obj [("steps", .arr [.obj [("affected_files", .arr [.str "conf/app.yaml", .str "evil.txt"])]])])
    { repo_id := "w1"
      high_risk_files := [{ path := "conf/app.yaml", size := 2, extension := ".yaml",
                            risk_level := "high", risk_reasons := ["r"] }] }
    3
    { overall_severity := "high"
      ai_insight := "AI-generated attack plan"
      steps := [{ step_number := 1, description := "", technique_id := "N/A",
                  severity := "medium", affected_files := ["conf/app.yaml"] }] }
    (by rfl) (by simp [pathsOf])
    { step_number := 1, description := "", technique_id := "N/A",
      severity := "medium", affected_files := ["conf/app.yaml"] }
    (by simp) "conf/app.yaml" (by simp)

/-! ## C2: the high-risk grading rule (corrected) -/

lemma toLower_eq_char {c d : Char}
    (hd : d.toNat < 65 ∨ (90 < d.toNat ∧ d.toNat < 97) ∨ 122 < d.toNat) :
    (Char.toLower c = d) ↔ c = d := by
  unfold Char.toLower
  dsimp only
  split
  · next h =>
    obtain ⟨h1, h2⟩ := h
    constructor
    · intro he
      exfalso
      rw [← he] at hd
      set n := c.toNat with hn
      interval_cases n <;> revert hd <;> decide
    · intro he
      exfalso
      rw [he] at h1 h2
      omega
  · exact Iff.rfl

lemma ne_slash_toLower (c : Char) :
    decide (Char.toLower c ≠ '/') = decide (c ≠ '/') := by
  have h := toLower_eq_char (c := c) (d := '/') (.inl (by decide))
  by_cases hc : c = '/'
  · simp [hc]
  · simp [hc, h]

lemma ne_dot_toLower (c : Char) :
    decide (Char.toLower c ≠ '.') = decide (c ≠ '.') := by
  have h := toLower_eq_char (c := c) (d := '.') (.inl (by decide))
  by_cases hc : c = '.'
  · simp [hc]
  · simp [hc, h]

lemma containsL_iff {α : Type} [BEq α] [LawfulBEq α] {l : List α} {a : α} :
    l.contains a = true ↔ a ∈ l := by
  simp

lemma takeWhile_congr_fun {α : Type} {p q : α → Bool} (h : ∀ c, p c = q c) :
    ∀ l : List α, l.takeWhile p = l.takeWhile q := by
  intro l
  induction l with
  | nil => rfl
  | cons x xs ih => simp only [List.takeWhile_cons, h x, ih]

lemma takeWhile_lower_of_pointwise {p : Char → Bool}
    (hp : ∀ c, p (Char.toLower c) = p c) (l : Str) :
    (lowerL l).takeWhile p = lowerL (l.takeWhile p) := by
  unfold lowerL
  rw [List.takeWhile_map]
  exact congrArg (List.map Char.toLower)
    (takeWhile_congr_fun (p := p ∘ Char.toLower) (q := p) (fun c => hp c) l)

lemma pathName_lower (rel : Str) : pathName (lowerL rel) = lowerL (pathName rel) := by
  unfold pathName
  rw [show (lowerL rel).reverse = lowerL rel.reverse by simp [lowerL],
      takeWhile_lower_of_pointwise ne_slash_toLower]
  simp [lowerL]

lemma contains_dot_lower (n : Str) : (lowerL n).contains '.' = n.contains '.' := by
  rw [Bool.eq_iff_iff, containsL_iff, containsL_iff]
  unfold lowerL
  rw [List.mem_map]
  constructor
  · rintro ⟨c, hc, he⟩
    rwa [(toLower_eq_char (.inl (by decide))).mp he] at hc
  · intro h
    exact ⟨'.', h, by decide⟩

lemma pathSuffix_lower (n : Str) : pathSuffix (lowerL n) = lowerL (pathSuffix n) := by
  unfold pathSuffix
  dsimp only
  rw [show (lowerL n).reverse = lowerL n.reverse from by simp [lowerL],
      takeWhile_lower_of_pointwise ne_dot_toLower, contains_dot_lower]
  simp only [lowerL, List.length_map]
  split
  · split
    · simp
    · simp
  · simp

lemma suffix_lower_eq (rel : Str) :
    pathSuffix (pathName (lowerL rel)) = lowerL (pathSuffix (pathName rel)) := by
  rw [pathName_lower, pathSuffix_lower]

lemma startsWithL_decomp {a b : Str} (h : startsWithL a b = true) :
    ∃ t, b = a ++ t := by
  induction a generalizing b with
  | nil => exact ⟨b, rfl⟩
  | cons x xs ih =>
    match b with
    | [] => simp [startsWithL] at h
    | y :: ys =>
      simp only [startsWithL, Bool.and_eq_true, beq_iff_eq] at h
      obtain ⟨rfl, h2⟩ := h
      obtain ⟨t, rfl⟩ := ih h2
      exact ⟨t, rfl⟩

lemma endsWith_decomp {l pre : Str} (h : endsWithL l pre = true) :
    ∃ t, l = t ++ pre := by
  unfold endsWithL at h
  obtain ⟨t, ht⟩ := startsWithL_decomp h
  refine ⟨t.reverse, ?_⟩
  have := congrArg List.reverse ht
  simpa using this

lemma takeWhile_append_all {α : Type} {p : α → Bool} {a : List α}
    (ha : ∀ c ∈ a, p c = true) (b : List α) :
    (a ++ b).takeWhile p = a ++ b.takeWhile p := by
  induction a with
  | nil => rfl
  | cons x xs ih =>
    have ht := ih (fun c hc => ha c (by simp [hc]))
    simp [List.takeWhile_cons, ha x (by simp), ht]

lemma endsWith_config_json {l : Str} (h : endsWithL l ("/config.json".data) = true) :
    pathSuffix (pathName l) = ".json".data := by
  obtain ⟨t, rfl⟩ := endsWith_decomp h
  unfold pathName
  have h1 : (t ++ "/config.json".data).reverse =
      "nosj.gifnoc".data ++ '/' :: t.reverse := by
    rw [List.reverse_append,
        show ("/config.json".data).reverse = "nosj.gifnoc".data ++ ['/'] from by decide,
        List.append_assoc]
    rfl
  rw [h1, takeWhile_append_all (by decide) _,
      show ('/' :: t.reverse).takeWhile (fun c => c ≠ '/') = [] from by
        simp [List.takeWhile_cons],
      List.append_nil]
  decide

lemma endsWith_config_yaml {l : Str} (h : endsWithL l ("/config.yaml".data) = true) :
    pathSuffix (pathName l) = ".yaml".data := by
  obtain ⟨t, rfl⟩ := endsWith_decomp h
  unfold pathName
  have h1 : (t ++ "/config.yaml".data).reverse =
      "lmay.gifnoc".data ++ '/' :: t.reverse := by
    rw [List.reverse_append,
        show ("/config.yaml".data).reverse = "lmay.gifnoc".data ++ ['/'] from by decide,
        List.append_assoc]
    rfl
  rw [h1, takeWhile_append_all (by decide) _,
      show ('/' :: t.reverse).takeWhile (fun c => c ≠ '/') = [] from by
        simp [List.takeWhile_cons],
      List.append_nil]
  decide

/-- The sensitive keywords listed in the C2 claim (no `env`). -/
def claimKeywordsC2 : List Str :=
  ["secret", "credential", "token", "password", "config", "deploy", "workflow",
   "key"].map String.data

/-- The claim's high-risk condition, following its words: filename or
extension in the fixed set, or the PATH contains one of the listed
keywords, or the path lies under `.github/workflows`, or the file is a
Docker-related artifact (the code's docker condition). -/
def claimHighRiskC2 (rel : Str) : Bool :=
  HIGH_RISK_FILENAMES.contains (lowerL (pathName rel)) ||
  HIGH_RISK_SUFFIXES.contains (lowerL (pathSuffix (pathName rel))) ||
  claimKeywordsC2.any (fun kw => containsSub (lowerL rel) kw) ||
  containsSub (lowerL rel) (".github/workflows".data) ||
  (containsSub (lowerL rel) ("docker".data) &&
    [([] : Str), ".yml".data, ".yaml".data].contains (lowerL (pathSuffix (pathName rel))))

/-- The amended high-risk condition: the keyword scan applies to the
lowercased FILENAME only, and the keyword set also contains `env` (the
code's `_SENSITIVE_KEYWORDS`). -/
def amendedHighRiskC2 (rel : Str) : Bool :=
  (HIGH_RISK_FILENAMES.contains (lowerL (pathName rel)) ||
   HIGH_RISK_SUFFIXES.contains (lowerL (pathSuffix (pathName rel)))) ||
  SENSITIVE_KEYWORDS.any (fun kw => containsSub (lowerL (pathName rel)) kw) ||
  containsSub (lowerL rel) (".github/workflows".data) ||
  (containsSub (lowerL rel) ("docker".data) &&
    [([] : Str), ".yml".data, ".yaml".data].contains (lowerL (pathSuffix (pathName rel))))

/-- C2 counterexample.  `secret/main.py` has `secret` in its path but not in
its filename: the claim grades it high, the code grades it low.  Conversely
`myenv.txt` contains the code's keyword `env` in its filename: the code
grades it high although no condition of the claim holds. -/
theorem c2_counterexample :
    ((assessRisk ("secret/main.py".data)).1 = "low" ∧
     claimHighRiskC2 ("secret/main.py".data) = true) ∧
    ((assessRisk ("myenv.txt".data)).1 = "high" ∧
     claimHighRiskC2 ("myenv.txt".data) = false) := by
  refine ⟨⟨?_, ?_⟩, ⟨?_, ?_⟩⟩ <;> decide

/-- C2 amended.  `_assess_risk` grades a file high-risk if and only if its
lowercased filename is a Docker filename or its extension is in the fixed
secret-bearing set, or its lowercased FILENAME contains one of the
sensitive keywords (secret, credential, token, password, config, deploy,
workflow, env, key), or its path lies under a `.github/workflows`
directory, or it is a Docker-related artifact (path contains `docker` with
a YAML or empty extension).  (The `/config.json` / `/config.yaml` rule of
the code is subsumed by the extension rule.) -/
theorem c2_high_risk_iff (rel : Str) :
    (assessRisk rel).1 = "high" ↔ amendedHighRiskC2 rel = true := by
  have hE : (endsWithL (lowerL rel) ("/config.json".data) ||
      endsWithL (lowerL rel) ("/config.yaml".data)) = true →
      HIGH_RISK_SUFFIXES.contains (lowerL (pathSuffix (pathName rel))) = true := by
    intro hE0
    simp only [Bool.or_eq_true] at hE0
    rcases hE0 with hj | hy
    · have hs := endsWith_config_json hj
      rw [suffix_lower_eq] at hs
      rw [hs]
      decide
    · have hs := endsWith_config_yaml hy
      rw [suffix_lower_eq] at hs
      rw [hs]
      decide
  unfold assessRisk amendedHighRiskC2
  dsimp only
  cases hA : (HIGH_RISK_FILENAMES.contains (lowerL (pathName rel)) ||
      HIGH_RISK_SUFFIXES.contains (lowerL (pathSuffix (pathName rel)))) <;>
  cases hB : SENSITIVE_KEYWORDS.any (fun kw => containsSub (lowerL (pathName rel)) kw) <;>
  cases hC : containsSub (lowerL rel) (".github/workflows".data) <;>
  cases hD : (containsSub (lowerL rel) ("docker".data) &&
      [([] : Str), ".yml".data, ".yaml".data].contains (lowerL (pathSuffix (pathName rel)))) <;>
  cases hE2 : (endsWithL (lowerL rel) ("/config.json".data) ||
      endsWithL (lowerL rel) ("/config.yaml".data)) <;>
  cases hS : [".sh".data, ".ps1".data, ".bat".data].contains (lowerL (pathSuffix (pathName rel))) <;>
    simp [hA, hB, hC, hD, hE2, hS]
  all_goals
    have hcontr := hE hE2
    simp_all

/-- Concrete instantiation of `c2_high_risk_iff`. -/
theorem c2_high_risk_iff_witness :
    (assessRisk ("a/.github/workflows/ci.txt".data)).1 = "high" ∧
    ¬ (assessRisk ("src/main.py".data)).1 = "high" :=
  ⟨(c2_high_risk_iff ("a/.github/workflows/ci.txt".data)).mpr (by decide),
   fun h => by
     have := (c2_high_risk_iff ("src/main.py".data)).mp h
     revert this
     decide⟩

/-! ## C8: the medium grade -/

/-- C8.  `_assess_risk` grades a file medium if and only if its lowercased
extension is `.sh`, `.ps1` or `.bat` and no high-risk rule fired; every
medium-graded file carries exactly the reason `"Executable script"`, and
every file graded neither high nor medium is `("low", [])`. -/
theorem c8_medium_grade (rel : Str) :
    ((assessRisk rel).1 = "medium" ↔
      ([".sh".data, ".ps1".data, ".bat".data].contains
          (lowerL (pathSuffix (pathName rel))) = true ∧
       (assessRisk rel).1 ≠ "high")) ∧
    ((assessRisk rel).1 = "medium" → (assessRisk rel).2 = ["Executable script"]) ∧
    ((assessRisk rel).1 ≠ "high" → (assessRisk rel).1 ≠ "medium" →
      assessRisk rel = ("low", [])) := by
  unfold assessRisk
  dsimp only
  cases hA : (HIGH_RISK_FILENAMES.contains (lowerL (pathName rel)) ||
      HIGH_RISK_SUFFIXES.contains (lowerL (pathSuffix (pathName rel)))) <;>
  cases hB : SENSITIVE_KEYWORDS.any (fun kw => containsSub (lowerL (pathName rel)) kw) <;>
  cases hC : containsSub (lowerL rel) (".github/workflows".data) <;>
  cases hD : (containsSub (lowerL rel) ("docker".data) &&
      [([] : Str), ".yml".data, ".yaml".data].contains (lowerL (pathSuffix (pathName rel)))) <;>
  cases hE2 : (endsWithL (lowerL rel) ("/config.json".data) ||
      endsWithL (lowerL rel) ("/config.yaml".data)) <;>
  cases hS : [".sh".data, ".ps1".data, ".bat".data].contains (lowerL (pathSuffix (pathName rel))) <;>
    simp [hA, hB, hC, hD, hE2, hS]

/-- Concrete instantiation of `c8_medium_grade`. -/
theorem c8_medium_grade_witness :
    (assessRisk ("scripts/run.sh".data)).1 = "medium" ∧
    (assessRisk ("scripts/run.sh".data)).2 = ["Executable script"] ∧
    assessRisk ("src/main.py".data) = ("low", []) :=
  ⟨(c8_medium_grade ("scripts/run.sh".data)).1.mpr ⟨by decide, by decide⟩,
   (c8_medium_grade ("scripts/run.sh".data)).2.1
     ((c8_medium_grade ("scripts/run.sh".data)).1.mpr ⟨by decide, by decide⟩),
   (c8_medium_grade ("src/main.py".data)).2.2 (by decide) (by decide)⟩

/-! ## C7/C10: theory of the sanitizer substitutions -/

/-- The character predicate of an atom. -/
def atomPred : Atom → Char → Bool
  | .cnt _ p, c => p c
  | .run _ p, c => p c

/-- The minimal number of characters a pattern consumes. -/
def patMin : List Atom → Nat
  | [] => 0
  | .cnt k _ :: rest => k + patMin rest
  | .run k _ :: rest => k + patMin rest

lemma takeWhile_eq_take_self {α : Type} (p : α → Bool) (l : List α) :
    l.take (l.takeWhile p).length = l.takeWhile p :=
  (List.prefix_iff_eq_take.mp (List.takeWhile_prefix p)).symm

lemma matchAtoms_le_length :
    ∀ {pat : List Atom} {l : Str} {n : Nat},
      matchAtoms pat l = some n → n ≤ l.length := by
  intro pat
  induction pat with
  | nil =>
    intro l n h
    rw [matchAtoms] at h
    cases h
    simp
  | cons a rest ih =>
    intro l n h
    match a with
    | .cnt k p =>
      rw [matchAtoms] at h
      split at h
      · next hc =>
        match hm : matchAtoms rest (l.drop k) with
        | none => rw [hm] at h; simp at h
        | some n2 =>
          rw [hm] at h
          simp only [Option.map_some', Option.some.injEq] at h
          have h2 := ih hm
          simp only [Bool.and_eq_true, decide_eq_true_eq] at hc
          simp only [List.length_drop] at h2
          omega
      · simp at h
    | .run k p =>
      rw [matchAtoms] at h
      try dsimp only at h
      split at h
      · simp at h
      · match hm : matchAtoms rest (l.drop (l.takeWhile p).length) with
        | none => rw [hm] at h; simp at h
        | some n2 =>
          rw [hm] at h
          simp only [Option.map_some', Option.some.injEq] at h
          have h2 := ih hm
          have hr : (l.takeWhile p).length ≤ l.length :=
            (List.takeWhile_prefix p).length_le
          simp only [List.length_drop] at h2
          omega

lemma matchAtoms_min :
    ∀ {pat : List Atom} {l : Str} {n : Nat},
      matchAtoms pat l = some n → patMin pat ≤ n := by
  intro pat
  induction pat with
  | nil =>
    intro l n h
    rw [matchAtoms] at h
    cases h
    simp [patMin]
  | cons a rest ih =>
    intro l n h
    match a with
    | .cnt k p =>
      rw [matchAtoms] at h
      split at h
      · match hm : matchAtoms rest (l.drop k) with
        | none => rw [hm] at h; simp at h
        | some n2 =>
          rw [hm] at h
          simp only [Option.map_some', Option.some.injEq] at h
          have h2 := ih hm
          simp only [patMin]
          omega
      · simp at h
    | .run k p =>
      rw [matchAtoms] at h
      try dsimp only at h
      split at h
      · simp at h
      · next hge =>
        match hm : matchAtoms rest (l.drop (l.takeWhile p).length) with
        | none => rw [hm] at h; simp at h
        | some n2 =>
          rw [hm] at h
          simp only [Option.map_some', Option.some.injEq] at h
          have h2 := ih hm
          simp only [patMin]
          omega

lemma matchAtoms_nil_of_min {pat : List Atom} (h : 1 ≤ patMin pat) :
    matchAtoms pat [] = none := by
  match hm : matchAtoms pat [] with
  | none => rfl
  | some n =>
    have h1 := matchAtoms_le_length hm
    have h2 := matchAtoms_min hm
    simp at h1
    omega

lemma matchAtoms_avoid {c : Char} :
    ∀ {pat : List Atom} {l : Str} {n : Nat},
      (∀ a ∈ pat, atomPred a c = false) →
      matchAtoms pat l = some n → c ∉ l.take n := by
  intro pat
  induction pat with
  | nil =>
    intro l n hav h
    rw [matchAtoms] at h
    cases h
    simp
  | cons a rest ih =>
    intro l n hav h
    match a with
    | .cnt k p =>
      rw [matchAtoms] at h
      split at h
      · next hc =>
        match hm : matchAtoms rest (l.drop k) with
        | none => rw [hm] at h; simp at h
        | some n2 =>
          rw [hm] at h
          simp only [Option.map_some', Option.some.injEq] at h
          subst h
          rw [List.take_add]
          intro hmem
          rcases List.mem_append.mp hmem with h1 | h2
          · simp only [Bool.and_eq_true, decide_eq_true_eq] at hc
            have hp := List.all_eq_true.mp hc.2 c h1
            have hap : atomPred (Atom.cnt k p) c = false := hav _ (by simp)
            simp [atomPred] at hap
            simp [hap] at hp
          · exact ih (fun b hb => hav b (by simp [hb])) hm h2
      · simp at h
    | .run k p =>
      rw [matchAtoms] at h
      try dsimp only at h
      split at h
      · simp at h
      · match hm : matchAtoms rest (l.drop (l.takeWhile p).length) with
        | none => rw [hm] at h; simp at h
        | some n2 =>
          rw [hm] at h
          simp only [Option.map_some', Option.some.injEq] at h
          subst h
          rw [List.take_add, takeWhile_eq_take_self]
          intro hmem
          rcases List.mem_append.mp hmem with h1 | h2
          · have hp := List.mem_takeWhile_imp h1
            have hap : atomPred (Atom.run k p) c = false := hav _ (by simp)
            simp [atomPred] at hap
            simp [hap] at hp
          · exact ih (fun b hb => hav b (by simp [hb])) hm h2

/-- Well-formed sanitizer patterns: a greedy run is either the final atom or
is followed by a counted atom whose predicate is disjoint from the run's
(so maximal munch coincides with the regex semantics). -/
inductive PatOK : List Atom → Prop where
  | nil : PatOK []
  | cnt (k : Nat) (p : Char → Bool) {rest : List Atom} :
      PatOK rest → PatOK (.cnt k p :: rest)
  | runNil (k : Nat) (p : Char → Bool) : PatOK [.run k p]
  | runCnt (k : Nat) (p : Char → Bool) (k2 : Nat) (q : Char → Bool)
      {rest : List Atom} :
      1 ≤ k2 → (∀ c, p c = true → q c = false) →
      PatOK (.cnt k2 q :: rest) → PatOK (.run k p :: .cnt k2 q :: rest)

lemma dropWhile_head_false {α : Type} {p : α → Bool} {l t : List α} {d : α}
    (h : l.dropWhile p = d :: t) : p d = false := by
  induction l with
  | nil => simp [List.dropWhile] at h
  | cons x xs ih =>
    rw [List.dropWhile_cons] at h
    split at h
    · exact ih h
    · next hx =>
      cases h
      exact Bool.not_eq_true _ ▸ (by simpa using hx)

lemma drop_takeWhile_length {α : Type} (p : α → Bool) (l : List α) :
    l.drop ((l.takeWhile p).length) = l.dropWhile p := by
  rw [← List.drop_left (l.takeWhile p) (l.dropWhile p),
      List.takeWhile_append_dropWhile]

lemma matchAtoms_ext :
    ∀ {pat : List Atom}, PatOK pat →
      ∀ {l : Str} {n : Nat}, matchAtoms pat l = some n →
      ∀ y : Str, (matchAtoms pat (l.take n ++ y)).isSome = true := by
  intro pat hOK
  induction hOK with
  | nil =>
    intro l n h y
    rw [matchAtoms] at h
    cases h
    rw [matchAtoms]
    simp
  | cnt k p hrestOK ih =>
    rename_i rest
    intro l n h y
    rw [matchAtoms] at h
    split at h
    · next hc =>
      match hm : matchAtoms rest (l.drop k) with
      | none => rw [hm] at h; simp at h
      | some n2 =>
        rw [hm] at h
        simp only [Option.map_some', Option.some.injEq] at h
        subst h
        simp only [Bool.and_eq_true, decide_eq_true_eq] at hc
        obtain ⟨hk, hall⟩ := hc
        have hulen : (l.take k).length = k := by
          simp [List.length_take]
          omega
        rw [List.take_add, List.append_assoc, matchAtoms]
        have htake : ((l.take k) ++ ((l.drop k).take n2 ++ y)).take k = l.take k :=
          List.take_left' hulen
        have hdrop : ((l.take k) ++ ((l.drop k).take n2 ++ y)).drop k =
            (l.drop k).take n2 ++ y :=
          List.drop_left' hulen
        have hcond : (decide (k ≤ ((l.take k) ++ ((l.drop k).take n2 ++ y)).length) &&
            (((l.take k) ++ ((l.drop k).take n2 ++ y)).take k).all p) = true := by
          rw [htake]
          simp only [List.length_append, hulen, Bool.and_eq_true, decide_eq_true_eq]
          exact ⟨by omega, hall⟩
        rw [if_pos hcond, hdrop]
        obtain ⟨n3, hn3⟩ := Option.isSome_iff_exists.mp (ih hm y)
        rw [hn3]
        simp
    · simp at h
  | runNil k p =>
    intro l n h y
    rw [matchAtoms] at h
    try dsimp only at h
    split at h
    · simp at h
    · next hge =>
      rw [matchAtoms] at h
      simp only [Option.map_some', Option.some.injEq] at h
      subst h
      rw [Nat.add_zero, takeWhile_eq_take_self, matchAtoms]
      try dsimp only
      have hall : ∀ c ∈ l.takeWhile p, p c = true := fun c hc => List.mem_takeWhile_imp hc
      rw [takeWhile_append_all hall y]
      have hlen : (l.takeWhile p ++ y.takeWhile p).length ≥ k := by
        simp only [List.length_append]
        omega
      rw [if_neg (by omega)]
      rw [matchAtoms]
      simp
  | runCnt k p k2 q hk2 hdisj hrestOK ih =>
    rename_i rest
    intro l n h y
    rw [matchAtoms] at h
    try dsimp only at h
    split at h
    · simp at h
    · next hge =>
      match hm : matchAtoms (Atom.cnt k2 q :: rest) (l.drop (l.takeWhile p).length) with
      | none => rw [hm] at h; simp at h
      | some n2 =>
        rw [hm] at h
        simp only [Option.map_some', Option.some.injEq] at h
        subst h
        have hn2min : 1 ≤ n2 := by
          have := matchAtoms_min hm
          simp only [patMin] at this
          omega
        obtain ⟨d, t, hdt, hqd⟩ : ∃ d t, l.drop ((l.takeWhile p).length) = d :: t ∧ p d = false := by
          rw [drop_takeWhile_length]
          match hdw : l.dropWhile p with
          | [] =>
            exfalso
            rw [drop_takeWhile_length, hdw] at hm
            have h1 := matchAtoms_le_length hm
            simp at h1
            omega
          | d :: t => exact ⟨d, t, rfl, dropWhile_head_false hdw⟩
        rw [List.take_add, takeWhile_eq_take_self, List.append_assoc, matchAtoms]
        try dsimp only
        have hall : ∀ c ∈ l.takeWhile p, p c = true := fun c hc => List.mem_takeWhile_imp hc
        rw [takeWhile_append_all hall _]
        have htail : ((l.drop (l.takeWhile p).length).take n2 ++ y).takeWhile p = [] := by
          rw [hdt]
          match n2, hn2min with
          | n2' + 1, _ =>
            simp [List.take_succ_cons, List.takeWhile_cons, hqd]
        rw [htail, List.append_nil]
        rw [if_neg (by omega)]
        have hdrop : (l.takeWhile p ++ ((l.drop (l.takeWhile p).length).take n2 ++ y)).drop
            ((l.takeWhile p).length) = (l.drop (l.takeWhile p).length).take n2 ++ y :=
          List.drop_left _ _
        rw [hdrop]
        obtain ⟨n3, hn3⟩ := Option.isSome_iff_exists.mp (ih hm y)
        rw [hn3]
        simp

/-- `pat` has no occurrence at any position of `l`. -/
def cleanPat (pat : List Atom) (l : Str) : Prop :=
  ∀ i, matchAtoms pat (l.drop i) = none

lemma match_le_of_stop {pat : List Atom} {c : Char}
    (hAv : ∀ a ∈ pat, atomPred a c = false) {u v : Str} {n : Nat}
    (h : matchAtoms pat (u ++ c :: v) = some n) : n ≤ u.length := by
  by_contra hgt
  push_neg at hgt
  apply matchAtoms_avoid hAv h
  rw [List.take_append_eq_append_take]
  refine List.mem_append_right _ ?_
  have h1 : (c :: v).take (n - u.length) = c :: v.take (n - u.length - 1) := by
    match hm2 : n - u.length with
    | 0 => omega
    | m + 1 => simp
  rw [h1]
  exact List.mem_cons_self _ _

lemma match_swap_tail {pat : List Atom} (hOK : PatOK pat) {u v w : Str} {n : Nat}
    (h : matchAtoms pat (u ++ v) = some n) (hn : n ≤ u.length) :
    (matchAtoms pat (u ++ w)).isSome = true := by
  have hext := matchAtoms_ext hOK h (u.drop n ++ w)
  have htake : (u ++ v).take n = u.take n := by
    rw [List.take_append_eq_append_take]
    have h0 : n - u.length = 0 := by omega
    rw [h0]
    simp
  rw [htake, ← List.append_assoc, List.take_append_drop] at hext
  exact hext

lemma subst_prefix (pat : List Atom) (rtail : Str) :
    ∀ l : Str, subst pat ('[' :: rtail) l = l ∨
      ∃ k s, k ≤ l.length ∧ subst pat ('[' :: rtail) l = l.take k ++ '[' :: s := by
  have main : ∀ N, ∀ l : Str, l.length ≤ N → (subst pat ('[' :: rtail) l = l ∨
      ∃ k s, k ≤ l.length ∧ subst pat ('[' :: rtail) l = l.take k ++ '[' :: s) := by
    intro N
    induction N with
    | zero =>
      intro l hl
      have h0 : l = [] := List.length_eq_zero.mp (by omega)
      subst h0
      left
      rw [subst]
    | succ N ihN =>
      intro l hl
      match l with
      | [] =>
        left
        rw [subst]
      | c :: cs =>
        rw [subst]
        cases hm : matchAtoms pat (c :: cs) with
        | some n =>
          right
          refine ⟨0, rtail ++ subst pat ('[' :: rtail) (cs.drop (n - 1)), by simp, ?_⟩
          simp
        | none =>
          rcases ihN cs (by simp at hl; omega) with heq | ⟨k, s2, hk, heq⟩
          · left
            rw [heq]
          · right
            refine ⟨k + 1, s2, by simp; omega, ?_⟩
            rw [heq]
            rfl
  intro l
  exact main l.length l le_rfl

/-- Core lemma: substituting `pat2` by a bracket-delimited replacement
leaves no occurrence of `pat1`, provided `pat1` matches contain no
brackets, the replacement contains no `pat1` occurrence, and `pat1` has no
occurrence of its own at the positions where `pat2` found no match.
Instantiated with `pat1 = pat2` it clears the substituted pattern itself;
with a hypothesis of cleanliness it preserves cleanliness of other
patterns. -/
lemma subst_clean {pat1 pat2 : List Atom} {mid : Str}
    (hOK : PatOK pat1)
    (hAvL : ∀ a ∈ pat1, atomPred a '[' = false)
    (hAvR : ∀ a ∈ pat1, atomPred a ']' = false)
    (hreplClean : ∀ q, matchAtoms pat1 (('[' :: mid ++ [']']).drop q) = none) :
    ∀ l : Str,
      (∀ j, matchAtoms pat2 (l.drop j) = none → matchAtoms pat1 (l.drop j) = none) →
      cleanPat pat1 (subst pat2 ('[' :: mid ++ [']']) l) := by
  have hnil : matchAtoms pat1 [] = none := by
    have h0 := hreplClean (('[' :: mid ++ [']']).length)
    rwa [List.drop_length] at h0
  have main : ∀ N, ∀ l : Str, l.length ≤ N →
      (∀ j, matchAtoms pat2 (l.drop j) = none → matchAtoms pat1 (l.drop j) = none) →
      ∀ q, matchAtoms pat1 ((subst pat2 ('[' :: mid ++ [']']) l).drop q) = none := by
    intro N
    induction N with
    | zero =>
      intro l hl H q
      have h0 : l = [] := List.length_eq_zero.mp (by omega)
      subst h0
      rw [subst, List.drop_nil]
      exact hnil
    | succ N ihN =>
      intro l hl H q
      match l with
      | [] =>
        rw [subst, List.drop_nil]
        exact hnil
      | c :: cs =>
        rw [subst]
        cases hm : matchAtoms pat2 (c :: cs) with
        | some n =>
          have hrest : ∀ j, matchAtoms pat2 ((cs.drop (n - 1)).drop j) = none →
              matchAtoms pat1 ((cs.drop (n - 1)).drop j) = none := by
            intro j
            rw [List.drop_drop]
            have he : cs.drop (n - 1 + j) = (c :: cs).drop (n - 1 + j + 1) := by
              rw [List.drop_succ_cons]
            rw [he]
            exact H (n - 1 + j + 1)
          have hsub := ihN (cs.drop (n - 1))
            (by simp only [List.length_drop, List.length_cons] at hl ⊢; omega) hrest
          by_cases hq : q < ('[' :: mid ++ [']']).length
          · rw [List.drop_append_eq_append_drop]
            have hq0 : q - ('[' :: mid ++ [']']).length = 0 := by omega
            rw [hq0, List.drop_zero]
            have hsplit : ('[' :: mid ++ [']']).drop q = ('[' :: mid).drop q ++ [']'] := by
              rw [show ('[' :: mid ++ [']']) = ('[' :: mid) ++ [']'] from rfl,
                  List.drop_append_eq_append_drop]
              have hq1 : q - ('[' :: mid).length = 0 := by
                simp at hq ⊢
                omega
              rw [hq1]
              simp
            rw [hsplit, List.append_assoc]
            match hcon : matchAtoms pat1 (('[' :: mid).drop q ++
                (']' :: subst pat2 ('[' :: mid ++ [']']) (cs.drop (n - 1)))) with
            | none => rfl
            | some n1 =>
              exfalso
              have hle := match_le_of_stop hAvR hcon
              have hsw := match_swap_tail hOK hcon hle (w := [']'])
              rw [← hsplit, hreplClean q] at hsw
              simp at hsw
          · rw [List.drop_append_eq_append_drop]
            have hnilr : ('[' :: mid ++ [']']).drop q = [] :=
              List.drop_eq_nil_iff.mpr (by omega)
            rw [hnilr, List.nil_append]
            exact hsub (q - ('[' :: mid ++ [']']).length)
        | none =>
          match q with
          | q' + 1 =>
            rw [List.drop_succ_cons]
            refine ihN cs (by simp only [List.length_cons] at hl; omega) ?_ q'
            intro j hj
            have hH := H (j + 1)
            rw [List.drop_succ_cons] at hH
            exact hH hj
          | 0 =>
            rw [List.drop_zero]
            match hcon : matchAtoms pat1 (c :: subst pat2 ('[' :: mid ++ [']']) cs) with
            | none => rfl
            | some n1 =>
              exfalso
              have hl0 : matchAtoms pat1 (c :: cs) = none := by
                have hH := H 0
                rw [List.drop_zero] at hH
                exact hH hm
              rcases subst_prefix pat2 (mid ++ [']']) cs with heq0 | ⟨k, s2, hk, heq0⟩
              · have heq : subst pat2 ('[' :: mid ++ [']']) cs = cs := heq0
                rw [heq, hl0] at hcon
                cases hcon
              · have heq : subst pat2 ('[' :: mid ++ [']']) cs = cs.take k ++ '[' :: s2 := heq0
                rw [heq,
                    show c :: (cs.take k ++ '[' :: s2) = (c :: cs.take k) ++ '[' :: s2
                      from rfl] at hcon
                have hle := match_le_of_stop hAvL hcon
                have hsw := match_swap_tail hOK hcon hle (w := cs.drop k)
                rw [show (c :: cs.take k) ++ cs.drop k = c :: cs from by
                      rw [List.cons_append, List.take_append_drop],
                    hl0] at hsw
                simp at hsw
  intro l H q
  exact main l.length l le_rfl H q

/-- Clearing a pattern by its own substitution. -/
lemma subst_self_clean {pat : List Atom} {mid : Str}
    (hOK : PatOK pat)
    (hAvL : ∀ a ∈ pat, atomPred a '[' = false)
    (hAvR : ∀ a ∈ pat, atomPred a ']' = false)
    (hreplClean : ∀ q, matchAtoms pat (('[' :: mid ++ [']']).drop q) = none)
    (l : Str) : cleanPat pat (subst pat ('[' :: mid ++ [']']) l) :=
  subst_clean hOK hAvL hAvR hreplClean l (fun _ h => h)

/-- A substitution of another pattern preserves cleanliness. -/
lemma subst_preserve_clean {pat1 pat2 : List Atom} {mid : Str}
    (hOK : PatOK pat1)
    (hAvL : ∀ a ∈ pat1, atomPred a '[' = false)
    (hAvR : ∀ a ∈ pat1, atomPred a ']' = false)
    (hreplClean : ∀ q, matchAtoms pat1 (('[' :: mid ++ [']']).drop q) = none)
    {l : Str} (hcl : cleanPat pat1 l) :
    cleanPat pat1 (subst pat2 ('[' :: mid ++ [']']) l) :=
  subst_clean hOK hAvL hAvR hreplClean l (fun j _ => hcl j)

/-- Occurrence-freeness survives passing to a contiguous substring. -/
lemma cleanPat_take_drop {pat : List Atom} (hOK : PatOK pat) {l : Str}
    (hcl : cleanPat pat l) (a b : Nat) : cleanPat pat ((l.drop a).take b) := by
  intro i
  match hcon : matchAtoms pat (((l.drop a).take b).drop i) with
  | none => rfl
  | some n =>
    exfalso
    rw [List.drop_take, List.drop_drop] at hcon
    have hlen := matchAtoms_le_length hcon
    have hsw := match_swap_tail (v := ([] : Str)) hOK
      (by rw [List.append_nil]; exact hcon)
      (by simpa using hlen) (w := (l.drop (a + i)).drop (b - i))
    rw [List.take_append_drop] at hsw
    rw [hcl (a + i)] at hsw
    simp at hsw

/-! ### Per-pattern facts -/

lemma REDACTED_eq : REDACTED = '[' :: "REDACTED".data ++ [']'] := rfl

lemma REDACTED_KEY_eq : REDACTED_KEY = '[' :: "REDACTED_API_KEY".data ++ [']'] := rfl

lemma patOK_allCnt : ∀ (l : List Atom), (∀ a ∈ l, ∃ k p, a = .cnt k p) → PatOK l := by
  intro l
  induction l with
  | nil => intro h; exact .nil
  | cons a t ih =>
    intro h
    obtain ⟨k, p, rfl⟩ := h a (List.mem_cons_self _ _)
    exact .cnt k p (ih (fun b hb => h b (List.mem_cons_of_mem _ hb)))

lemma patOK_cnt_append_run (l : List Atom) (h : ∀ a ∈ l, ∃ k p, a = .cnt k p)
    (k : Nat) (p : Char → Bool) : PatOK (l ++ [.run k p]) := by
  induction l with
  | nil => exact .runNil k p
  | cons a t ih =>
    obtain ⟨k2, p2, rfl⟩ := h a (List.mem_cons_self _ _)
    exact .cnt k2 p2 (ih (fun b hb => h b (List.mem_cons_of_mem _ hb)))

lemma ciWord_allCnt (s : String) : ∀ a ∈ ciWord s, ∃ k p, a = .cnt k p := by
  intro a ha
  unfold ciWord at ha
  rw [List.mem_map] at ha
  obtain ⟨c, -, rfl⟩ := ha
  exact ⟨1, _, rfl⟩

lemma csWord_allCnt (s : String) : ∀ a ∈ csWord s, ∃ k p, a = .cnt k p := by
  intro a ha
  unfold csWord at ha
  rw [List.mem_map] at ha
  obtain ⟨c, -, rfl⟩ := ha
  exact ⟨1, _, rfl⟩

lemma space_dash_disjoint : ∀ c, pyIsSpace c = true → ciLit '-' c = false := by
  intro c h
  by_contra hc
  have hc2 : ciLit '-' c = true := by
    revert hc
    cases (ciLit '-' c) <;> simp
  unfold ciLit at hc2
  simp only [Bool.or_eq_true, beq_iff_eq] at hc2
  rcases hc2 with rfl | rfl
  · revert h; decide
  · revert h; decide

lemma patOK_rmRf : PatOK patRmRf := by
  show PatOK (.cnt 1 (ciLit 'r') :: .cnt 1 (ciLit 'm') :: .run 1 pyIsSpace ::
    .cnt 1 (ciLit '-') :: .cnt 1 (ciLit 'r') :: .cnt 1 (ciLit 'f') :: [])
  refine .cnt _ _ (.cnt _ _ (.runCnt 1 pyIsSpace 1 (ciLit '-') (by omega)
    space_dash_disjoint ?_))
  exact patOK_allCnt _ (by
    intro a ha
    simp only [List.mem_cons, List.not_mem_nil, or_false] at ha
    rcases ha with rfl | rfl | rfl
    · exact ⟨1, _, rfl⟩
    · exact ⟨1, _, rfl⟩
    · exact ⟨1, _, rfl⟩)

lemma patOK_curl : PatOK patCurl := patOK_cnt_append_run _ (ciWord_allCnt "curl") _ _
lemma patOK_wget : PatOK patWget := patOK_cnt_append_run _ (ciWord_allCnt "wget") _ _
lemma patOK_bash : PatOK patBash := patOK_cnt_append_run _ (ciWord_allCnt "bash") _ _
lemma patOK_shSpace : PatOK patShSpace := patOK_cnt_append_run _ (ciWord_allCnt "sh") _ _
lemma patOK_execCall : PatOK patExecCall := patOK_allCnt _ (ciWord_allCnt "exec(")
lemma patOK_evalCall : PatOK patEvalCall := patOK_allCnt _ (ciWord_allCnt "eval(")
lemma patOK_osSystem : PatOK patOsSystem := patOK_allCnt _ (ciWord_allCnt "os.system")
lemma patOK_subproc : PatOK patSubproc := patOK_allCnt _ (ciWord_allCnt "subprocess.")

lemma patOK_aiza : PatOK patAiza := by
  apply patOK_allCnt
  intro a ha
  rcases List.mem_append.mp ha with h | h
  · exact csWord_allCnt "AIza" a h
  · rw [List.mem_singleton] at h
    subst h
    exact ⟨35, _, rfl⟩

lemma patOK_sk : PatOK patSk := by
  apply patOK_allCnt
  intro a ha
  rcases List.mem_append.mp ha with h | h
  · exact csWord_allCnt "sk-" a h
  · rw [List.mem_singleton] at h
    subst h
    exact ⟨48, _, rfl⟩

lemma patOK_token : PatOK patToken := .runNil 40 tokenClass

lemma clean_of_ranged {pat : List Atom} {l : Str}
    (h : ∀ q ∈ List.range (l.length + 1), matchAtoms pat (l.drop q) = none) :
    ∀ q, matchAtoms pat (l.drop q) = none := by
  intro q
  by_cases hq : q ≤ l.length
  · exact h q (List.mem_range.mpr (by omega))
  · rw [List.drop_eq_nil_iff.mpr (by omega)]
    have h0 := h l.length (List.mem_range.mpr (by omega))
    rwa [List.drop_eq_nil_iff.mpr le_rfl] at h0

/-! ### Chain-preservation helpers -/

lemma pre_cmd {P Q : List Atom}
    (hOK : PatOK P)
    (hL : ∀ a ∈ P, atomPred a '[' = false)
    (hR : ∀ a ∈ P, atomPred a ']' = false)
    (hRed : ∀ q, matchAtoms P (REDACTED.drop q) = none)
    {x : Str} (hx : cleanPat P x) : cleanPat P (subst Q REDACTED x) := by
  rw [REDACTED_eq] at hRed ⊢
  exact subst_preserve_clean hOK hL hR hRed hx

lemma pre_key {P Q : List Atom}
    (hOK : PatOK P)
    (hL : ∀ a ∈ P, atomPred a '[' = false)
    (hR : ∀ a ∈ P, atomPred a ']' = false)
    (hKey : ∀ q, matchAtoms P (REDACTED_KEY.drop q) = none)
    {x : Str} (hx : cleanPat P x) : cleanPat P (subst Q REDACTED_KEY x) := by
  rw [REDACTED_KEY_eq] at hKey ⊢
  exact subst_preserve_clean hOK hL hR hKey hx

lemma self_cmd {P : List Atom}
    (hOK : PatOK P)
    (hL : ∀ a ∈ P, atomPred a '[' = false)
    (hR : ∀ a ∈ P, atomPred a ']' = false)
    (hRed : ∀ q, matchAtoms P (REDACTED.drop q) = none)
    (x : Str) : cleanPat P (subst P REDACTED x) := by
  rw [REDACTED_eq] at hRed ⊢
  exact subst_self_clean hOK hL hR hRed x

lemma self_key {P : List Atom}
    (hOK : PatOK P)
    (hL : ∀ a ∈ P, atomPred a '[' = false)
    (hR : ∀ a ∈ P, atomPred a ']' = false)
    (hKey : ∀ q, matchAtoms P (REDACTED_KEY.drop q) = none)
    (x : Str) : cleanPat P (subst P REDACTED_KEY x) := by
  rw [REDACTED_KEY_eq] at hKey ⊢
  exact subst_self_clean hOK hL hR hKey x

/-! ### C10: the generic-token branch is a no-op -/

lemma digit_alpha_false (c : Char) : (pyIsDigit c && pyIsAlpha c) = false := by
  have h : ¬ ((pyIsDigit c && pyIsAlpha c) = true) := by
    simp only [pyIsDigit, pyIsAlpha, Bool.and_eq_true, Bool.or_eq_true,
      decide_eq_true_eq]
    rintro ⟨⟨h1, h2⟩, h34⟩
    have h1' : 48 ≤ c.toNat := h1
    have h2' : c.toNat ≤ 57 := h2
    rcases h34 with ⟨h3, h4⟩ | ⟨h3, h4⟩ <;> omega
  cases hb : (pyIsDigit c && pyIsAlpha c)
  · rfl
  · exact absurd hb h

lemma tokenRepl_id (g : Str) : tokenRepl g = g := by
  unfold tokenRepl
  rw [if_neg]
  intro h
  obtain ⟨c, -, hcc⟩ := List.any_eq_true.mp h
  rw [digit_alpha_false] at hcc
  cases hcc

lemma substFn_token_id : ∀ l : Str, substFn patToken tokenRepl l = l := by
  have main : ∀ N, ∀ l : Str, l.length ≤ N → substFn patToken tokenRepl l = l := by
    intro N
    induction N with
    | zero =>
      intro l hl
      have h0 : l = [] := List.length_eq_zero.mp (by omega)
      subst h0
      rw [substFn]
    | succ N ihN =>
      intro l hl
      match l with
      | [] => rw [substFn]
      | c :: cs =>
        rw [substFn]
        cases hm : matchAtoms patToken (c :: cs) with
        | none =>
          rw [ihN cs (by simpa using hl)]
        | some n =>
          dsimp only
          rw [tokenRepl_id,
              ihN (cs.drop (n - 1)) (by simp only [List.length_drop]; simp at hl; omega)]
          have hn : 1 ≤ n := by
            have := matchAtoms_min hm
            simp only [patToken, patMin] at this
            omega
          match n, hn with
          | n2 + 1, _ =>
            rw [List.take_succ_cons, Nat.add_sub_cancel, List.cons_append,
                List.take_append_drop]
  exact fun l => main l.length l le_rfl

/-- C10.  The generic long-token redaction branch of `_sanitize_text` is a
no-op: no character is both a digit and alphabetic, so the replacement
condition of the 40-plus-character token substitution is unsatisfiable,
every matched token is returned unchanged, and `[REDACTED_TOKEN]` occurs in
the output exactly when it already occurred in the input. -/
theorem c10_token_branch_noop :
    (∀ c : Char, (pyIsDigit c && pyIsAlpha c) = false) ∧
    (∀ g : Str, tokenRepl g = g) ∧
    (∀ l : Str, substFn patToken tokenRepl l = l) ∧
    (∀ l : Str, containsSub (substFn patToken tokenRepl l) ("[REDACTED_TOKEN]".data) =
      containsSub l ("[REDACTED_TOKEN]".data)) :=
  ⟨digit_alpha_false, tokenRepl_id, substFn_token_id,
   fun l => by rw [substFn_token_id]⟩

/-! ### C7: sanitizer outputs are free of the dangerous patterns -/

lemma pyStrip_take_drop (l : Str) : ∃ a b, pyStrip l = (l.drop a).take b := by
  unfold pyStrip
  rw [← drop_takeWhile_length]
  set m := l.drop (l.takeWhile pyIsSpace).length with hm
  refine ⟨(l.takeWhile pyIsSpace).length,
    m.length - (m.reverse.takeWhile pyIsSpace).length, ?_⟩
  rw [← drop_takeWhile_length, List.drop_reverse, List.reverse_reverse]

lemma cleanPat_pyStrip {P : List Atom} (hOK : PatOK P) {l : Str}
    (h : cleanPat P l) : cleanPat P (pyStrip l) := by
  obtain ⟨a, b, he⟩ := pyStrip_take_drop l
  rw [he]
  exact cleanPat_take_drop hOK h a b

/-- Both bracket characters are matched by no atom of the pattern. -/
def avoidAll (P : List Atom) : Prop :=
  (∀ a ∈ P, atomPred a '[' = false) ∧ (∀ a ∈ P, atomPred a ']' = false)

lemma avoid_rmRf : avoidAll patRmRf := by constructor <;> decide
lemma avoid_curl : avoidAll patCurl := by constructor <;> decide
lemma avoid_wget : avoidAll patWget := by constructor <;> decide
lemma avoid_bash : avoidAll patBash := by constructor <;> decide
lemma avoid_shSpace : avoidAll patShSpace := by constructor <;> decide
lemma avoid_execCall : avoidAll patExecCall := by constructor <;> decide
lemma avoid_evalCall : avoidAll patEvalCall := by constructor <;> decide
lemma avoid_osSystem : avoidAll patOsSystem := by constructor <;> decide
lemma avoid_subproc : avoidAll patSubproc := by constructor <;> decide
lemma avoid_aiza : avoidAll patAiza := by constructor <;> decide
lemma avoid_sk : avoidAll patSk := by constructor <;> decide

lemma redClean_rmRf : ∀ q, matchAtoms patRmRf (REDACTED.drop q) = none :=
  clean_of_ranged (by decide)
lemma redClean_curl : ∀ q, matchAtoms patCurl (REDACTED.drop q) = none :=
  clean_of_ranged (by decide)
lemma redClean_wget : ∀ q, matchAtoms patWget (REDACTED.drop q) = none :=
  clean_of_ranged (by decide)
lemma redClean_bash : ∀ q, matchAtoms patBash (REDACTED.drop q) = none :=
  clean_of_ranged (by decide)
lemma redClean_shSpace : ∀ q, matchAtoms patShSpace (REDACTED.drop q) = none :=
  clean_of_ranged (by decide)
lemma redClean_execCall : ∀ q, matchAtoms patExecCall (REDACTED.drop q) = none :=
  clean_of_ranged (by decide)
lemma redClean_evalCall : ∀ q, matchAtoms patEvalCall (REDACTED.drop q) = none :=
  clean_of_ranged (by decide)
lemma redClean_osSystem : ∀ q, matchAtoms patOsSystem (REDACTED.drop q) = none :=
  clean_of_ranged (by decide)
lemma redClean_subproc : ∀ q, matchAtoms patSubproc (REDACTED.drop q) = none :=
  clean_of_ranged (by decide)

lemma keyClean_rmRf : ∀ q, matchAtoms patRmRf (REDACTED_KEY.drop q) = none :=
  clean_of_ranged (by decide)
lemma keyClean_curl : ∀ q, matchAtoms patCurl (REDACTED_KEY.drop q) = none :=
  clean_of_ranged (by decide)
lemma keyClean_wget : ∀ q, matchAtoms patWget (REDACTED_KEY.drop q) = none :=
  clean_of_ranged (by decide)
lemma keyClean_bash : ∀ q, matchAtoms patBash (REDACTED_KEY.drop q) = none :=
  clean_of_ranged (by decide)
lemma keyClean_shSpace : ∀ q, matchAtoms patShSpace (REDACTED_KEY.drop q) = none :=
  clean_of_ranged (by decide)
lemma keyClean_execCall : ∀ q, matchAtoms patExecCall (REDACTED_KEY.drop q) = none :=
  clean_of_ranged (by decide)
lemma keyClean_evalCall : ∀ q, matchAtoms patEvalCall (REDACTED_KEY.drop q) = none :=
  clean_of_ranged (by decide)
lemma keyClean_osSystem : ∀ q, matchAtoms patOsSystem (REDACTED_KEY.drop q) = none :=
  clean_of_ranged (by decide)
lemma keyClean_subproc : ∀ q, matchAtoms patSubproc (REDACTED_KEY.drop q) = none :=
  clean_of_ranged (by decide)
lemma keyClean_aiza : ∀ q, matchAtoms patAiza (REDACTED_KEY.drop q) = none :=
  clean_of_ranged (by decide)
lemma keyClean_sk : ∀ q, matchAtoms patSk (REDACTED_KEY.drop q) = none :=
  clean_of_ranged (by decide)

/-- One outward layer of `cmdPass`: the substitution of any other command
pattern preserves occurrence-freeness. -/
lemma cmd_step {P Q : List Atom} (hOK : PatOK P) (hAv : avoidAll P)
    (hRed : ∀ q, matchAtoms P (REDACTED.drop q) = none)
    {x : Str} (hx : cleanPat P x) : cleanPat P (subst Q REDACTED x) :=
  pre_cmd hOK hAv.1 hAv.2 hRed hx

/-- The two API-key layers preserve occurrence-freeness. -/
lemma key_steps {P : List Atom} (hOK : PatOK P) (hAv : avoidAll P)
    (hKey : ∀ q, matchAtoms P (REDACTED_KEY.drop q) = none)
    {x : Str} (hx : cleanPat P x) :
    cleanPat P (subst patSk REDACTED_KEY (subst patAiza REDACTED_KEY x)) :=
  pre_key hOK hAv.1 hAv.2 hKey (pre_key hOK hAv.1 hAv.2 hKey hx)

lemma clean_cmd_rmRf (t : Str) : cleanPat patRmRf (cmdPass t) := by
  unfold cmdPass
  iterate 8 apply cmd_step patOK_rmRf avoid_rmRf redClean_rmRf
  exact self_cmd patOK_rmRf avoid_rmRf.1 avoid_rmRf.2 redClean_rmRf t

lemma clean_cmd_curl (t : Str) : cleanPat patCurl (cmdPass t) := by
  unfold cmdPass
  iterate 7 apply cmd_step patOK_curl avoid_curl redClean_curl
  exact self_cmd patOK_curl avoid_curl.1 avoid_curl.2 redClean_curl _

lemma clean_cmd_wget (t : Str) : cleanPat patWget (cmdPass t) := by
  unfold cmdPass
  iterate 6 apply cmd_step patOK_wget avoid_wget redClean_wget
  exact self_cmd patOK_wget avoid_wget.1 avoid_wget.2 redClean_wget _

lemma clean_cmd_bash (t : Str) : cleanPat patBash (cmdPass t) := by
  unfold cmdPass
  iterate 5 apply cmd_step patOK_bash avoid_bash redClean_bash
  exact self_cmd patOK_bash avoid_bash.1 avoid_bash.2 redClean_bash _

lemma clean_cmd_shSpace (t : Str) : cleanPat patShSpace (cmdPass t) := by
  unfold cmdPass
  iterate 4 apply cmd_step patOK_shSpace avoid_shSpace redClean_shSpace
  exact self_cmd patOK_shSpace avoid_shSpace.1 avoid_shSpace.2 redClean_shSpace _

lemma clean_cmd_execCall (t : Str) : cleanPat patExecCall (cmdPass t) := by
  unfold cmdPass
  iterate 3 apply cmd_step patOK_execCall avoid_execCall redClean_execCall
  exact self_cmd patOK_execCall avoid_execCall.1 avoid_execCall.2 redClean_execCall _

lemma clean_cmd_evalCall (t : Str) : cleanPat patEvalCall (cmdPass t) := by
  unfold cmdPass
  iterate 2 apply cmd_step patOK_evalCall avoid_evalCall redClean_evalCall
  exact self_cmd patOK_evalCall avoid_evalCall.1 avoid_evalCall.2 redClean_evalCall _

lemma clean_cmd_osSystem (t : Str) : cleanPat patOsSystem (cmdPass t) := by
  unfold cmdPass
  apply cmd_step patOK_osSystem avoid_osSystem redClean_osSystem
  exact self_cmd patOK_osSystem avoid_osSystem.1 avoid_osSystem.2 redClean_osSystem _

lemma clean_cmd_subproc (t : Str) : cleanPat patSubproc (cmdPass t) := by
  unfold cmdPass
  exact self_cmd patOK_subproc avoid_subproc.1 avoid_subproc.2 redClean_subproc _

/-- Cleanliness of the final sanitizer output, given cleanliness after the
two API-key substitution layers (the token pass is the identity and
`strip()` passes to a substring). -/
lemma clean_sanitizeL {P : List Atom} (hOK : PatOK P)
    (hnil : matchAtoms P [] = none) (t : Str)
    (hclean : cleanPat P
      (subst patSk REDACTED_KEY (subst patAiza REDACTED_KEY (cmdPass t)))) :
    cleanPat P (sanitizeL t) := by
  unfold sanitizeL
  split
  · intro i
    rw [List.drop_nil]
    exact hnil
  · rw [substFn_token_id]
    exact cleanPat_pyStrip hOK hclean

/-- The sanitization property claimed of `_sanitize_text`: the text holds no
occurrence of any of the nine dangerous command patterns nor of a
Gemini-style or OpenAI-style API-key literal. -/
def sanitizedClean (s : String) : Prop :=
  cleanPat patRmRf s.data ∧ cleanPat patCurl s.data ∧ cleanPat patWget s.data ∧
  cleanPat patBash s.data ∧ cleanPat patShSpace s.data ∧
  cleanPat patExecCall s.data ∧ cleanPat patEvalCall s.data ∧
  cleanPat patOsSystem s.data ∧ cleanPat patSubproc s.data ∧
  cleanPat patAiza s.data ∧ cleanPat patSk s.data

lemma sanitize_clean_all (s : String) : sanitizedClean (sanitize_text s) := by
  show sanitizedClean (List.asString (sanitizeL s.data))
  refine ⟨?_, ?_, ?_, ?_, ?_, ?_, ?_, ?_, ?_, ?_, ?_⟩
  · exact clean_sanitizeL patOK_rmRf (by decide) _
      (key_steps patOK_rmRf avoid_rmRf keyClean_rmRf (clean_cmd_rmRf _))
  · exact clean_sanitizeL patOK_curl (by decide) _
      (key_steps patOK_curl avoid_curl keyClean_curl (clean_cmd_curl _))
  · exact clean_sanitizeL patOK_wget (by decide) _
      (key_steps patOK_wget avoid_wget keyClean_wget (clean_cmd_wget _))
  · exact clean_sanitizeL patOK_bash (by decide) _
      (key_steps patOK_bash avoid_bash keyClean_bash (clean_cmd_bash _))
  · exact clean_sanitizeL patOK_shSpace (by decide) _
      (key_steps patOK_shSpace avoid_shSpace keyClean_shSpace (clean_cmd_shSpace _))
  · exact clean_sanitizeL patOK_execCall (by decide) _
      (key_steps patOK_execCall avoid_execCall keyClean_execCall (clean_cmd_execCall _))
  · exact clean_sanitizeL patOK_evalCall (by decide) _
      (key_steps patOK_evalCall avoid_evalCall keyClean_evalCall (clean_cmd_evalCall _))
  · exact clean_sanitizeL patOK_osSystem (by decide) _
      (key_steps patOK_osSystem avoid_osSystem keyClean_osSystem (clean_cmd_osSystem _))
  · exact clean_sanitizeL patOK_subproc (by decide) _
      (key_steps patOK_subproc avoid_subproc keyClean_subproc (clean_cmd_subproc _))
  · exact clean_sanitizeL patOK_aiza (by decide) _
      (pre_key patOK_aiza avoid_aiza.1 avoid_aiza.2 keyClean_aiza
        (self_key patOK_aiza avoid_aiza.1 avoid_aiza.2 keyClean_aiza _))
  · exact clean_sanitizeL patOK_sk (by decide) _
      (self_key patOK_sk avoid_sk.1 avoid_sk.2 keyClean_sk _)

lemma insight_default_clean : sanitizedClean "AI-generated attack plan" :=
  ⟨clean_of_ranged (by decide), clean_of_ranged (by decide),
   clean_of_ranged (by decide), clean_of_ranged (by decide),
   clean_of_ranged (by decide), clean_of_ranged (by decide),
   clean_of_ranged (by decide), clean_of_ranged (by decide),
   clean_of_ranged (by decide), clean_of_ranged (by decide),
   clean_of_ranged (by decide)⟩

/-- The payload of the C7 witness: one step dictionary with no description
(so sanitization acts on the empty string) and no ai_insight. -/
def c7Payload : Json := .obj [("steps", .arr [.obj [("severity", .str "low")]])]

/-- The profile of the C7 witness. -/
def c7Profile : RepoProfile := { repo_id := "repo-c7", high_risk_files := [] }

/-- The validated plan of the C7 witness. -/
def c7VP : ValidatedPlan :=
  { overall_severity := "high"
    ai_insight := "AI-generated attack plan"
    steps := [{ step_number := 1
                description := ""
                technique_id := "N/A"
                severity := "low"
                affected_files := [] }] }

/-- C7.  Sanitization: for every input string, the output of
`_sanitize_text` contains no occurrence of any of the nine dangerous
command patterns (`rm\s+-rf`, `curl\s+`, `wget\s+`, `bash\s+`, `sh\s+`,
`exec\(`, `eval\(`, `os\.system`, `subprocess\.`, matched
case-insensitively) and no Gemini-style (`AIza` + 35 token characters) or
OpenAI-style (`sk-` + 48 alphanumerics) API-key literal; and every step
description and the ai_insight text of every plan accepted by
`_parse_and_validate_attack_plan` satisfy the same occurrence-freeness. -/
theorem c7_sanitized_text :
    (∀ s : String, sanitizedClean (sanitize_text s)) ∧
    (∀ (pd : Json) (prof : RepoProfile) (ms : Nat) (vp : ValidatedPlan),
      validate_attack_plan pd prof ms = .ok vp →
        (∀ st ∈ vp.steps, sanitizedClean st.description) ∧
        sanitizedClean vp.ai_insight) := by
  refine ⟨sanitize_clean_all, ?_⟩
  intro pd prof ms vp h
  obtain ⟨stepsList, -, hsteps, -, hins⟩ := validate_ok_inv h
  constructor
  · intro st hst
    rw [hsteps] at hst
    obtain ⟨-, hmem⟩ := buildValidatedSteps_sound (stepsList.take ms) 0
    obtain ⟨-, -, -, -, -, raw, hraw⟩ := hmem st hst
    rw [hraw]
    exact sanitize_clean_all raw
  · rcases hins with he | ⟨raw, hraw⟩
    · rw [he]
      exact insight_default_clean
    · rw [hraw]
      exact sanitize_clean_all raw

/-- Closed instance of C7 at a concrete payload accepted by the validator. -/
theorem c7_sanitized_text_witness :
    sanitizedClean (sanitize_text "") ∧
    ((∀ st ∈ c7VP.steps, sanitizedClean st.description) ∧
      sanitizedClean c7VP.ai_insight) :=
  ⟨c7_sanitized_text.1 "",
   c7_sanitized_text.2 c7Payload c7Profile 3 c7VP (by rfl)⟩

end CognitoForge
